import Mathlib

/-!
Shallow embedding of the Substance `RenderingEngine` (ui/RenderingEngine.js).

The engine reconciles a captured virtual tree against a concrete DOM.  The
definitions below translate, function by function, the pieces of the source
that the verified properties are about: the per-pass tag store
(`RenderingState`), the reference-linking step (`_linkComponent`,
`_isOfSameType`), ancestor-link propagation (`_propagateLinking`), the
update phase (`_update` with its dual-cursor child merge), attribute
synchronisation (`_updateHash`, `_updateListeners`), the notification
traversal (`_triggerDidUpdate`), and adoption mode (`_adopt`, `_createEl`).

The imperative JS is modelled by explicit state passing: object identity is a
`Nat` id, per-pass tags are a function `Id → Tag → Bool`, DOM reads come from
a read-only `Env`, DOM writes and lifecycle notifications are recorded as an
event list, and recursion is driven by explicit fuel (the functions are
mutually recursive in the source; fuel keeps all definitions structurally
recursive and kernel-reducible).
-/

set_option autoImplicit false

namespace Substance

/-- Object identity (virtual elements, component instances and DOM nodes
all carry a numeric id in the model). -/
abbrev Id := Nat

/-- The per-pass tag symbols of `RenderingEngine` (CAPTURED, DETACHED, …). -/
inductive Tag where
  | captured
  | detached
  | linked
  | mapped
  | isNew
  | relocated
  | rendered
  | skipped
  | updated
deriving DecidableEq, Repr

/-- A per-pass tag assignment, the view of `RenderingState` used by the
capture/update algorithms: `state.is(key, obj)` is `t obj key`. -/
def Tags := Id → Tag → Bool

/-- `state.set(key, obj)` restricted to the boolean tags. -/
def Tags.set (t : Tags) (i : Id) (k : Tag) : Tags :=
  fun j k' => if j = i ∧ k' = k then true else t j k'

/-- `state.is(key, obj)`. -/
def Tags.is (t : Tags) (i : Id) (k : Tag) : Bool := t i k

@[simp] theorem Tags.is_set_self (t : Tags) (i : Id) (k : Tag) :
    (t.set i k).is i k = true := by
  simp [Tags.set, Tags.is]

theorem Tags.is_set (t : Tags) (i j : Id) (k k' : Tag) :
    (t.set i k).is j k' = if j = i ∧ k' = k then true else t.is j k' := by
  simp [Tags.set, Tags.is]

/-- The concrete type of a component instance or virtual element, as compared
by `_isOfSameType`: element components (`_isElementComponent` /
`_isVirtualHTMLElement`), real components with their class
(`comp.constructor === vc.ComponentClass`), and text nodes. -/
inductive VKind where
  | element (tagName : String)
  | component (classId : Nat)
  | textNode
deriving DecidableEq, Repr

/-- `_isOfSameType(comp, vc)`: element component ↔ virtual HTML element (the
tag name is *not* compared), component ↔ virtual component with identical
class, text-node component ↔ virtual text node. -/
def _isOfSameType (comp vc : VKind) : Bool :=
  match comp, vc with
  | .element _, .element _ => true
  | .component a, .component b => a = b
  | .textNode, .textNode => true
  | _, _ => false

/-- `VKind` classifiers mirroring `_isVirtualComponent` etc. -/
def VKind.isComponent : VKind → Bool
  | .component _ => true
  | _ => false

def VKind.isElement : VKind → Bool
  | .element _ => true
  | _ => false

def VKind.isText : VKind → Bool
  | .textNode => true
  | _ => false

/-- ASCII lower-casing of one character (`String.prototype.toLowerCase` as
used on tag names). -/
def charLower (c : Char) : Char :=
  if c.toNat ≥ 65 ∧ c.toNat ≤ 90 then Char.ofNat (c.toNat + 32) else c

/-- ASCII lower-casing of a string. -/
def strLower (s : String) : String := ⟨s.data.map charLower⟩

/-! ### Key-diff over attribute/property hashes (`_updateHash`) -/

/-- `_hashGet(hash, key)`; `none` models JS `undefined`. -/
def _hashGet (hash : List (String × String)) (key : String) : Option String :=
  (hash.find? (fun p => p.1 = key)).map (·.2)

/-- DOM mutation and lifecycle-notification events recorded by the model.
Each constructor corresponds to one primitive the engine performs on the
target tree or on a component instance. -/
inductive Ev where
  | removeNode (parentEl childEl : Id)
  | appendNode (parentEl childEl : Id)
  | insertBefore (parentEl childEl beforeEl : Id)
  | replaceNode (parentEl oldEl newEl : Id)
  | createNode (el : Id)
  | setAttr (el : Id) (key val : String)
  | removeAttr (el : Id) (key : String)
  | setProp (el : Id) (key val : String)
  | removeProp (el : Id) (key : String)
  | removeAllListeners (el : Id)
  | addListener (el : Id) (name : String)
  | setText (el : Id) (s : String)
  | setTagName (el : Id) (t : String)
  | emptyEl (el : Id)
  | setInnerHTML (el : Id) (s : String)
  | dispose (comp : Id)
  | didMount (comp : Id)
  | didUpdate (comp : Id)
  | throwErr (msg : String)
  | assertFail
  | fuelOut
deriving DecidableEq, Repr

/-- `_updateHash({newHash, oldHash, update, remove})`: walk the new hash in
order marking every new key as updated and calling `update` when the value
changed (including keys absent from the old hash), then remove old keys that
were not marked. -/
def _updateHash (oldHash newHash : List (String × String))
    (update : String → String → Ev) (remove : String → Ev) : List Ev :=
  let updatedKeys := newHash.map (·.1)
  (newHash.filterMap fun p =>
    if _hashGet oldHash p.1 ≠ some p.2 then some (update p.1 p.2) else none)
  ++ (oldHash.filterMap fun p =>
    if updatedKeys.contains p.1 then none else some (remove p.1))

/-- `_updateListeners(args)`: all existing listeners are removed and the new
ones added again, without comparing them. -/
def _updateListeners (el : Id) (newListeners : List String) : List Ev :=
  Ev.removeAllListeners el :: newListeners.map (fun name => Ev.addListener el name)

/-! ### The concrete target tree and the component store -/

/-- The observable state of a concrete DOM node, as read by the update phase:
`isTextNode()`, `getTagName()` (lower-case), `textContent`, `getAttributes()`,
`htmlProps`, `getEventListeners()`, `getInnerHTML()` with the `_hasInnerHTML`
marker, the `_comp` back-pointer, `getChildNodes()` and `parentNode`. -/
structure ElData where
  isText : Bool
  tagName : String
  text : String
  attrs : List (String × String)
  htmlProps : List (String × String)
  listeners : List String
  innerHTML : String
  hasInnerHTMLFlag : Bool
  comp : Option Id
  children : List Id
  parent : Option Id

/-- The per-instance data the update phase reads from a component:
its concrete type (`_isElementComponent` / class / text), `isMounted()`
and `_isForwarded()`. -/
structure CompData where
  kind : VKind
  mounted : Bool
  isForwarded : Bool

/-- Read-only environment of one update pass: the concrete tree as it stood
when the pass began, the component instances, and the resolution performed by
`_findForwardingChildOfComponent` (parent component, forwarded component). -/
structure Env where
  els : Id → Option ElData
  comps : Id → Option CompData
  resolveForward : Id → Id → Option Id

/-- The fields of a captured virtual element consumed by the update phase:
identity, concrete kind, merged tag name, attributes, HTML properties,
listeners, text, optional inner HTML (`hasInnerHTML()` is `isSome`), and the
forwarding flags `_isForwarding` / `_isForwarded`. -/
structure VelData where
  id : Id
  kind : VKind
  tagName : String
  attrs : List (String × String)
  htmlProps : List (String × String)
  listeners : List String
  text : String
  innerHTML : Option String
  isForwarding : Bool
  isForwarded : Bool

/-- A captured virtual tree (`VirtualElement` after `_capture`): the child
list of a forwarding component is the single forwarded element. -/
inductive Vel where
  | node (d : VelData) (children : List Vel)

def Vel.data : Vel → VelData
  | .node d _ => d

def Vel.children : Vel → List Vel
  | .node _ c => c

/-- Mutable state threaded through the update phase: per-pass tags, the
`vel._comp` links (mutated by opportunistic linking), the `comp.el`
assignments, the `el._comp` / child-list assignments for nodes created during
the pass, the id supply for created nodes, and the event trace. -/
structure St where
  tags : Tags
  velComp : Id → Option Id
  compEl : Id → Option Id
  elCompOv : Id → Option Id
  elChildrenOv : Id → Option (List Id)
  fresh : Id
  events : List Ev

/-- Append events to the trace. -/
def St.emit (st : St) (evs : List Ev) : St :=
  { st with events := st.events ++ evs }

/-- Set a per-pass tag (`state.set(key, obj)`). -/
def St.setTag (st : St) (i : Id) (k : Tag) : St :=
  { st with tags := st.tags.set i k }

/-- Read `el._comp`, preferring an assignment made during this pass. -/
def elCompOf (env : Env) (st : St) (e : Id) : Option Id :=
  match st.elCompOv e with
  | some c => some c
  | none => (env.els e).bind (·.comp)

/-- Read `el.getChildNodes()`, preferring the (empty) child list of a node
created during this pass. -/
def elChildrenOf (env : Env) (st : St) (e : Id) : List Id :=
  match st.elChildrenOv e with
  | some cs => cs
  | none => ((env.els e).map (·.children)).getD []

/-- Read `el.parentNode`. -/
def elParentOf (env : Env) (e : Id) : Option Id :=
  (env.els e).bind (·.parent)

/-- The state of a node freshly produced by the element factory
(`createElement` / `createTextNode`). -/
def freshElData (d : VelData) : ElData :=
  { isText := d.kind.isText
    tagName := strLower d.tagName
    text := if d.kind.isText then d.text else ""
    attrs := []
    htmlProps := []
    listeners := []
    innerHTML := ""
    hasInnerHTMLFlag := false
    comp := none
    children := []
    parent := none }

/-! ### `_updateDOMElement` -/

/-- `_updateDOMElement(el, vel)`: text nodes update their content only when
it differs; elements synchronise the tag name, key-diff attributes and HTML
properties via `_updateHash`, re-register all listeners via
`_updateListeners`, and special-case custom inner HTML. -/
def _updateDOMElement (ed : ElData) (elId : Id) (d : VelData) : List Ev :=
  if d.kind.isText then
    if ed.text ≠ d.text then [Ev.setText elId d.text] else []
  else
    (if strLower d.tagName ≠ ed.tagName then [Ev.setTagName elId d.tagName] else [])
    ++ _updateHash ed.attrs d.attrs (Ev.setAttr elId) (Ev.removeAttr elId)
    ++ _updateHash ed.htmlProps d.htmlProps (Ev.setProp elId) (Ev.removeProp elId)
    ++ _updateListeners elId d.listeners
    ++ (match d.innerHTML with
        | none => []
        | some s =>
          if ¬ed.hasInnerHTMLFlag then [Ev.emptyEl elId, Ev.setInnerHTML elId s]
          else if ed.innerHTML ≠ s then [Ev.setInnerHTML elId s]
          else [])

/-- `_createDOMElement(state, vel)`: ask the element factory for a fresh
node, set its `_comp` back-pointer, and apply `_updateDOMElement` against the
pristine node.  Returns the new node's id. -/
def _createDOMElement (st : St) (d : VelData) : St × Id :=
  let elId := st.fresh
  let st :=
    { st with
      fresh := st.fresh + 1
      elCompOv := fun j => if j = elId then st.velComp d.id else st.elCompOv j
      elChildrenOv := fun j => if j = elId then some [] else st.elChildrenOv j
      events := st.events ++ (Ev.createNode elId :: _updateDOMElement (freshElData d) elId d) }
  (st, elId)

/-- The view of `el` the update phase reads when diffing in place. -/
def effElData (env : Env) (e : Id) : ElData :=
  ((env.els e).getD (freshElData
    { id := 0, kind := .element "", tagName := "", attrs := [], htmlProps := []
      listeners := [], text := "", innerHTML := none
      isForwarding := false, isForwarded := false }))

def compMounted (env : Env) (c : Id) : Bool :=
  ((env.comps c).map (·.mounted)).getD false

def compIsForwarded (env : Env) (c : Id) : Bool :=
  ((env.comps c).map (·.isForwarded)).getD false

def compKind (env : Env) (c : Id) : Option VKind :=
  (env.comps c).map (·.kind)

/-! ### Lifecycle helpers of the update phase -/

/-- `_triggerDidMount(state, parent, child)`: the mount notification fires
only for a child that is not flagged detached, under a mounted parent, and
that is not itself mounted yet. -/
def _triggerDidMount (env : Env) (st : St) (parentComp childComp : Id) : List Ev :=
  if ¬st.tags.is childComp .detached
      ∧ compMounted env parentComp ∧ ¬compMounted env childComp then
    [Ev.didMount childComp]
  else []

/-- `_appendChild(state, parent, child)`. -/
def _appendChild (env : Env) (st : St) (parentComp parentEl childComp : Id) : St :=
  match st.compEl childComp with
  | none => st.emit [Ev.assertFail]
  | some childEl =>
    st.emit (Ev.appendNode parentEl childEl :: _triggerDidMount env st parentComp childComp)

/-- `_removeChild(state, parent, child)`: the node is removed first; the
dispose notification fires afterwards, unless the child is flagged
detached. -/
def _removeChild (st : St) (parentEl childComp : Id) : St :=
  match st.compEl childComp with
  | none => st.emit [Ev.assertFail]
  | some childEl =>
    st.emit (Ev.removeNode parentEl childEl ::
      (if st.tags.is childComp .detached then [] else [Ev.dispose childComp]))

/-- `_insertChildBefore(state, parent, child, before)`. -/
def _insertChildBefore (env : Env) (st : St) (parentComp parentEl childComp beforeComp : Id) : St :=
  match st.compEl childComp, st.compEl beforeComp with
  | some childEl, some beforeEl =>
    st.emit (Ev.insertBefore parentEl childEl beforeEl :: _triggerDidMount env st parentComp childComp)
  | _, _ => st.emit [Ev.assertFail]

/-- `_replaceChild(state, parent, oldChild, newChild)`: the node is replaced
first; the old child's dispose fires afterwards unless it is flagged
detached; then the mount check runs for the new child. -/
def _replaceChild (env : Env) (st : St) (parentComp parentEl oldComp newComp : Id) : St :=
  match st.compEl oldComp, st.compEl newComp with
  | some oldEl, some newEl =>
    st.emit (Ev.replaceNode parentEl oldEl newEl ::
      ((if st.tags.is oldComp .detached then [] else [Ev.dispose oldComp])
        ++ _triggerDidMount env st parentComp newComp))
  | _, _ => st.emit [Ev.assertFail]

/-! ### The pre-merge strip of the old child sequence (`_update`, the
`oldChildren` computation) -/

/-- The strip performed on `comp.el.getChildNodes()` before the dual-cursor
merge: nodes without a component are removed; forwarded components are
resolved through `_findForwardingChildOfComponent`; orphaned nodes and the
nodes of relocated components are removed from the DOM (without dispose) and
excluded from the old child sequence. -/
def stripOld (env : Env) (parentComp parentEl : Id) :
    List Id → St → List Id × St
  | [], st => ([], st)
  | e :: rest, st =>
    match elCompOf env st e with
    | none =>
      stripOld env parentComp parentEl rest (st.emit [Ev.removeNode parentEl e])
    | some c0 =>
      match (if compIsForwarded env c0 then env.resolveForward parentComp c0 else some c0) with
      | none =>
        stripOld env parentComp parentEl rest (st.emit [Ev.removeNode parentEl e])
      | some c =>
        if st.tags.is c .relocated then
          stripOld env parentComp parentEl rest (st.emit [Ev.removeNode parentEl e])
        else
          (c :: (stripOld env parentComp parentEl rest st).1,
            (stripOld env parentComp parentEl rest st).2)

/-- The trailing removal when the new child list is exhausted
(`while (oldComp) { _removeChild(...) }`). -/
def _removeRemaining (parentEl : Id) : List Id → St → St
  | [], st => st
  | c :: rest, st => _removeRemaining parentEl rest (_removeChild st parentEl c)

/-! ### `_update` and the dual-cursor child merge -/

mutual

/-- `_update(state, vel)`: skipped descriptors are a no-op; forwarding
components delegate to their forwarded element; otherwise the node is
created or synchronised in place, the child lists are merged with the
dual-cursor loop, and for virtual components the forwarded element is
adopted as the component's own node.  Fuel replaces the source's unbounded
recursion; exhaustion records a `fuelOut` event. -/
def _update (env : Env) : Nat → St → Vel → St
  | 0, st, _ => st.emit [Ev.fuelOut]
  | fuel + 1, st, .node d children =>
    if st.tags.is d.id .skipped then st
    else
      match st.velComp d.id with
      | none => st.emit [Ev.assertFail]
      | some compId =>
        let st :=
          if d.isForwarding then
            match children with
            | fwd :: _ => _update env fuel st fwd
            | [] => st.emit [Ev.assertFail]
          else
            let st :=
              match st.compEl compId with
              | none =>
                let p := _createDOMElement st d
                { p.1 with compEl := fun c => if c = compId then some p.2 else p.1.compEl c }
              | some elId =>
                st.emit (_updateDOMElement (effElData env elId) elId d)
            if (d.kind.isComponent || d.kind.isElement) && d.innerHTML = none then
              match st.compEl compId with
              | some elId =>
                let p := stripOld env compId elId (elChildrenOf env st elId) st
                _mergeChildren env fuel compId elId p.1 children p.2
              | none => st.emit [Ev.assertFail]
            else st
        let st :=
          if d.kind.isComponent ∧ d.isForwarding then
            match children with
            | .node fd _ :: _ =>
              match st.velComp fd.id with
              | none => st.emit [Ev.assertFail]
              | some fcomp =>
                match st.compEl compId with
                | none =>
                  { st with compEl := fun c => if c = compId then st.compEl fcomp else st.compEl c }
                | some elId =>
                  match elCompOf env st elId with
                  | none => st.emit [Ev.assertFail]
                  | some oldF =>
                    if oldF ≠ fcomp then
                      match elParentOf env elId, st.compEl fcomp with
                      | some pEl, some fEl =>
                        let st := st.emit
                          [Ev.dispose oldF, Ev.replaceNode pEl elId fEl, Ev.didMount fcomp]
                        { st with compEl := fun c => if c = compId then some fEl else st.compEl c }
                      | _, _ => st.emit [Ev.assertFail]
                    else st
            | [] => st.emit [Ev.assertFail]
          else st
        (st.setTag d.id .rendered).setTag compId .rendered

/-- The dual-cursor merge over the stripped old child components and the new
child descriptors (`_update`, the `while (pos1 < … || pos2 < …)` loop):
detached old components are skipped; identical adjacent text nodes are
reused; unmapped same-tag elements are linked opportunistically; matched
pairs are a no-op; linked-versus-linked out-of-order pairs detach the old
side; linked new children displace unlinked old ones; unlinked pairs are
replaced wholesale; leftovers are appended or removed. -/
def _mergeChildren (env : Env) : Nat → Id → Id → List Id → List Vel → St → St
  | 0, _, _, _, _, st => st.emit [Ev.fuelOut]
  | fuel + 1, parentComp, parentEl, olds, news, st =>
    match olds, news with
    | [], [] => st
    | oldC :: olds', news =>
      if st.tags.is oldC .detached then
        _mergeChildren env fuel parentComp parentEl olds' news st
      else
        match news with
        | [] => _removeRemaining parentEl (oldC :: olds') st
        | newVel :: news' =>
          let oldEl := st.compEl oldC
          let oldEd := oldEl.map (effElData env)
          if (oldEd.map (·.isText)).getD false ∧ (newVel.data.kind.isText : Bool)
              ∧ (oldEd.map (·.text)).getD "" = newVel.data.text then
            _mergeChildren env fuel parentComp parentEl olds' news' st
          else if (compKind env oldC |>.map VKind.isElement).getD false
              ∧ (newVel.data.kind.isElement : Bool)
              ∧ ¬st.tags.is oldC .mapped ∧ ¬st.tags.is newVel.data.id .mapped
              ∧ (compKind env oldC = some (.element newVel.data.tagName)) then
            let st := { st with velComp := fun j =>
              if j = newVel.data.id then some oldC else st.velComp j }
            let st := (st.setTag newVel.data.id .linked).setTag oldC .linked
            let st := _update env fuel st newVel
            _mergeChildren env fuel parentComp parentEl olds' news' st
          else
            let st := if ¬st.tags.is newVel.data.id .rendered
              then _update env fuel st newVel else st
            match st.velComp newVel.data.id with
            | none => st.emit [Ev.assertFail]
            | some newComp =>
              if newComp = oldC then
                _mergeChildren env fuel parentComp parentEl olds' news' st
              else if st.tags.is newVel.data.id .linked then
                if st.tags.is oldC .linked then
                  let st := st.setTag oldC .detached
                  let st := _removeChild st parentEl oldC
                  _mergeChildren env fuel parentComp parentEl olds' (newVel :: news') st
                else
                  let st := _removeChild st parentEl oldC
                  _mergeChildren env fuel parentComp parentEl olds' (newVel :: news') st
              else if st.tags.is oldC .linked then
                let st := _insertChildBefore env st parentComp parentEl newComp oldC
                _mergeChildren env fuel parentComp parentEl (oldC :: olds') news' st
              else
                let st := _replaceChild env st parentComp parentEl oldC newComp
                _mergeChildren env fuel parentComp parentEl olds' news' st
    | [], newVel :: news' =>
      let st := if ¬st.tags.is newVel.data.id .rendered
        then _update env fuel st newVel else st
      match st.velComp newVel.data.id with
      | none => st.emit [Ev.assertFail]
      | some newComp =>
        let st := _appendChild env st parentComp parentEl newComp
        _mergeChildren env fuel parentComp parentEl [] news' st

end

/-! ### The post-update notification traversal (`_triggerDidUpdate`) -/

mutual

/-- `_triggerDidUpdate(state, vel)`: for a virtual component, descend into
the children unless the component was skipped, then fire `didUpdate` on the
attached instance when the descriptor carries the UPDATED tag; for a virtual
HTML element, descend only. -/
def _triggerDidUpdate (tg : Tags) (vc : Id → Option Id) : Vel → List Ev
  | .node d children =>
    if d.kind.isComponent then
      (if ¬tg.is d.id .skipped then _triggerDidUpdateList tg vc children else [])
      ++ (if tg.is d.id .updated then
            match vc d.id with
            | some c => [Ev.didUpdate c]
            | none => [Ev.assertFail]
          else [])
    else if d.kind.isElement then
      _triggerDidUpdateList tg vc children
    else []

def _triggerDidUpdateList (tg : Tags) (vc : Id → Option Id) : List Vel → List Ev
  | [] => []
  | v :: vs => _triggerDidUpdate tg vc v ++ _triggerDidUpdateList tg vc vs

end

/-! ### Adoption mode (`_adopt`, `_createEl`, `_getForwardedEl`,
`_propagateForwardedEl`) -/

/-- `_getForwardedEl(vel)`, together with the chain of forwarding ancestors
that `_propagateForwardedEl` will walk afterwards (innermost forwarding
ancestor first, as the source's parent walk visits them). -/
def _getForwardedElC : Vel → Vel × List Id
  | .node d children =>
    if d.isForwarding then
      match children with
      | fwd :: _ =>
        let p := _getForwardedElC fwd
        (p.1, p.2 ++ [d.id])
      | [] => (.node d children, [])
    else (.node d children, [])

/-- `_propagateForwardedEl(vel, el)`: when `vel` is a forwarded element, walk
the forwarding ancestors and alias each ancestor component's node to `el`. -/
def _propagateForwardedEl (st : St) (isForwarded : Bool) (ancestors : List Id) (el : Id) : St :=
  if isForwarded then
    ancestors.foldl
      (fun s a =>
        match s.velComp a with
        | some c => { s with compEl := fun j => if j = c then some el else s.compEl j }
        | none => s.emit [Ev.assertFail])
      st
  else st

mutual

/-- `_adopt(state, vel, el)`: bind the virtual element onto a pre-existing
concrete node — incompatible node kinds are an error; attributes are
synchronised in place; the forwarded element is propagated upward; then the
existing concrete children and the virtual children are walked in
lockstep. -/
def _adopt (env : Env) : Nat → St → Vel → List Id → Id → St
  | 0, st, _, _, _ => st.emit [Ev.fuelOut]
  | fuel + 1, st, .node d children, chain, elId =>
    if (d.kind.isComponent || d.kind.isElement) && (effElData env elId).isText then
      st.emit [Ev.throwErr "Provided DOM element is not compatible."]
    else
      match st.velComp d.id with
      | none => st.emit [Ev.assertFail]
      | some compId =>
        let st := { st with compEl := fun c => if c = compId then some elId else st.compEl c }
        let st := st.emit (_updateDOMElement (effElData env elId) elId d)
        let st := _propagateForwardedEl st d.isForwarded chain elId
        if d.kind.isComponent || d.kind.isElement then
          _adoptChildren env fuel (elChildrenOf env st elId) children elId st
        else st

/-- The lockstep walk of `_adopt` over the existing concrete child nodes and
the virtual children: surplus concrete nodes are removed, surplus virtual
children are created and appended, compatible pairs are adopted recursively,
and an incompatible concrete node is removed while the virtual child is
retried. -/
def _adoptChildren (env : Env) : Nat → List Id → List Vel → Id → St → St
  | 0, _, _, _, st => st.emit [Ev.fuelOut]
  | fuel + 1, existing, virtualKids, parentEl, st =>
    match existing, virtualKids with
    | [], [] => st
    | e :: es, [] =>
      _adoptChildren env fuel es [] parentEl (st.emit [Ev.removeNode parentEl e])
    | [], v :: vs =>
      let p := _createEl env fuel st v []
      _adoptChildren env fuel [] vs parentEl (p.1.emit [Ev.appendNode parentEl p.2])
    | e :: es, v :: vs =>
      let q := _getForwardedElC v
      let ed := effElData env e
      if (¬ed.isText ∧ ((q.1.data.kind.isElement : Bool) ∨ (q.1.data.kind.isComponent : Bool)))
          ∨ (ed.isText ∧ (q.1.data.kind.isText : Bool)) then
        let st := _adopt env fuel st q.1 q.2 e
        _adoptChildren env fuel es vs parentEl st
      else
        _adoptChildren env fuel es (v :: vs) parentEl (st.emit [Ev.removeNode parentEl e])

/-- `_createEl(state, vel)`: create a fresh concrete node for the descriptor,
alias it through the forwarding ancestors, and append freshly created nodes
for all children.  No mount notification is issued here. -/
def _createEl (env : Env) : Nat → St → Vel → List Id → St × Id
  | 0, st, _, _ => (st.emit [Ev.fuelOut], 0)
  | fuel + 1, st, .node d children, chain =>
    let p := _createDOMElement st d
    let st := p.1
    let elId := p.2
    let st :=
      match st.velComp d.id with
      | some c => { st with compEl := fun j => if j = c then some elId else st.compEl j }
      | none => st.emit [Ev.assertFail]
    let st := _propagateForwardedEl st d.isForwarded chain elId
    if d.kind.isComponent || d.kind.isElement then
      (_createElKids env fuel children (if d.isForwarding then d.id :: chain else []) elId st, elId)
    else (st, elId)

/-- The child loop of `_createEl`. -/
def _createElKids (env : Env) : Nat → List Vel → List Id → Id → St → St
  | 0, _, _, _, st => st.emit [Ev.fuelOut]
  | fuel + 1, kids, chain, parentEl, st =>
    match kids with
    | [] => st
    | v :: vs =>
      let p := _createEl env fuel st v chain
      _createElKids env fuel vs chain parentEl (p.1.emit [Ev.appendNode parentEl p.2])

end

/-- The post-capture branches of `RenderingEngine._render`: in adoption mode
the (possibly forwarded) root is adopted onto the component's existing node
and no notification traversal runs; otherwise the tree is updated and
`_triggerDidUpdate` walks it. -/
def renderPass (env : Env) (fuel : Nat) (st : St) (vel : Vel) (rootEl : Id)
    (adoptElement : Bool) : St :=
  if adoptElement then
    let p := _getForwardedElC vel
    _adopt env fuel st p.1 p.2 rootEl
  else
    let st := _update env fuel st vel
    st.emit (_triggerDidUpdate st.tags st.velComp vel)

/-! ### Reference linking during capture (`_linkComponent` and friends) -/

/-- The slice of per-pass state the linking step operates on: the tag store
and the `vel._comp` links of the new virtual components. -/
structure LSt where
  tags : Tags
  velComp : Id → Option Id

/-- `_link(state, comp, vc)`: attach the prior instance to the descriptor and
tag both sides MAPPED and LINKED. -/
def _link (s : LSt) (compId vcId : Id) : LSt :=
  { tags := ((((s.tags.set vcId .mapped).set compId .mapped).set vcId .linked).set compId .linked)
    velComp := fun j => if j = vcId then some compId else s.velComp j }

/-- `_reject(state, comp, vc)`: clear the descriptor's prior instance and tag
the descriptor (and the instance, when there is one) MAPPED. -/
def _reject (s : LSt) (comp : Option Id) (vcId : Id) : LSt :=
  { tags :=
      (match comp with
       | some c => (s.tags.set vcId .mapped).set c .mapped
       | none => s.tags.set vcId .mapped)
    velComp := fun j => if j = vcId then none else s.velComp j }

/-- `_isMapped(state, comp, vc)`. -/
def _isMapped (s : LSt) (compId vcId : Id) : Bool :=
  s.tags.is vcId .mapped || s.tags.is compId .mapped

/-- `_isLinked(state, comp, vc)`: the pair counts as linked when the
descriptor already points at the instance; inconsistent tag states are
repaired on the way (the source sets the LINKED tag on the virtual component
in both repair branches — modelled as written). -/
def _isLinked (s : LSt) (compId vcId : Id) : Bool × LSt :=
  let compIsLinked := s.tags.is compId .linked
  let vcIsLinked := s.tags.is vcId .linked
  if s.velComp vcId = some compId then
    let s := if ¬vcIsLinked then { s with tags := s.tags.set vcId .linked } else s
    let s := if ¬compIsLinked then { s with tags := s.tags.set vcId .linked } else s
    (true, s)
  else (false, s)

/-- `_linkComponent(state, comp, vc)`: no prior instance rejects the
descriptor; an already-mapped pair is left untouched; an already-linked pair
is left linked; otherwise the pair is linked when the concrete types are
identical and rejected when they differ. -/
def _linkComponent (s : LSt) (comp : Option (Id × VKind)) (vcId : Id) (vcKind : VKind) : LSt :=
  match comp with
  | none => _reject s none vcId
  | some ck =>
    if _isMapped s ck.1 vcId then s
    else
      let p := _isLinked s ck.1 vcId
      if p.1 then p.2
      else if _isOfSameType ck.2 vcKind then _link p.2 ck.1 vcId
      else _reject p.2 (some ck.1) vcId

/-- One reference-map kind of `_forEachComponent`'s `_addEntries`: pair each
newly declared reference with the prior instance recorded under the same
reference name in the previous pass (if any). -/
def _addEntries (newRefs : List (String × (Id × VKind)))
    (oldRefs : List (String × Option (Id × VKind))) :
    List (Option (Id × VKind) × Id × VKind) :=
  newRefs.map fun rv => (((oldRefs.find? (fun q => q.1 = rv.1)).bind (·.2)), rv.2)

/-- The `_forEachComponent(state, comp, vel, _linkComponent)` pass: fold
`_linkComponent` over the entry list in order. -/
def linkEntries (s : LSt) (entries : List (Option (Id × VKind) × Id × VKind)) : LSt :=
  entries.foldl (fun s e => _linkComponent s e.1 e.2.1 e.2.2) s

/-- The entry list of one capture step: explicit refs, then foreign refs,
then internal refs, each kind matched against the previous map of the same
kind. -/
def captureEntries
    (newRefs : List (String × (Id × VKind))) (oldRefs : List (String × Option (Id × VKind)))
    (newForeignRefs : List (String × (Id × VKind)))
    (oldForeignRefs : List (String × Option (Id × VKind)))
    (newInternalRefs : List (String × (Id × VKind)))
    (oldInternalRefs : List (String × Option (Id × VKind))) :
    List (Option (Id × VKind) × Id × VKind) :=
  _addEntries newRefs oldRefs ++ _addEntries newForeignRefs oldForeignRefs
    ++ _addEntries newInternalRefs oldInternalRefs

/-! ### Ancestor-link propagation (`_propagateLinking`) -/

/-- A virtual element seen from below: identity, concrete kind, the rendered
parent chain, and the preliminary parent chain (the components into which the
descriptor was appended). -/
inductive VelUp where
  | mk (id : Id) (kind : VKind) (parent : Option VelUp) (prelim : Option VelUp)

def VelUp.id : VelUp → Id
  | .mk i _ _ _ => i

def VelUp.kind : VelUp → VKind
  | .mk _ k _ _ => k

/-- A component instance seen from below: identity, concrete kind and the
parent chain (`comp.getParent()`). -/
inductive CompUp where
  | mk (id : Id) (kind : VKind) (parent : Option CompUp)

def CompUp.id : CompUp → Id
  | .mk i _ _ => i

/-- The `while (parent && parent._isElementComponent)` walk of
`_propagateLinking`'s preliminary-parent branch. -/
def skipElementComps : Option CompUp → Option CompUp
  | none => none
  | some (.mk i k p) => if k.isElement then skipElementComps p else some (.mk i k p)

mutual

/-- `_propagateLinking(state, comp, vel, stopIfMapped)`: walk the structural
or preliminary ancestor chain trying to map ancestors, linking compatible
plain elements/text nodes on the way; when the chain of a virtual component
cannot be confirmed, tag descriptor and instance RELOCATED.  The function
never throws.  (The source's guard for a null `vel` argument is inlined into
`_plRecurse`, where a missing parent yields `false`.) -/
def _propagateLinking : LSt → Option CompUp → VelUp → Bool → Bool × LSt
  | s, none, _, _ => (false, s)
  | s, some (CompUp.mk cid ckind cparent), VelUp.mk vid vkind vparent vprelim, stopIfMapped =>
    if stopIfMapped ∧ _isMapped s cid vid then
      _isLinked s cid vid
    else if ¬vkind.isComponent ∧ ¬_isOfSameType ckind vkind then
      (false, _reject s (some cid) vid)
    else
      let s1 := if ¬vkind.isComponent then _link s cid vid else s
      let r := _plRecurse s1 cparent vparent vprelim
      if vkind.isComponent ∧ ¬r.1 then
        (r.1, { r.2 with tags := (r.2.tags.set vid .relocated).set cid .relocated })
      else r
termination_by _s _c v _b => sizeOf v

/-- The ancestor recursion performed by `_propagateLinking`: follow the
rendered parent when there is one, otherwise the preliminary parent (with
element components skipped on the instance side), otherwise fail. -/
def _plRecurse (s : LSt) (cparent : Option CompUp) : Option VelUp → Option VelUp → Bool × LSt
  | some vp, _ => _propagateLinking s cparent vp true
  | none, some pp => _propagateLinking s (skipElementComps cparent) pp true
  | none, none => (false, s)
termination_by vp pp => sizeOf vp + sizeOf pp

end

/-! ### The per-pass render state (`RenderingState`) with its pollution
bookkeeping, and the capture step's contract checks -/

/-- `RenderingState` as implemented: tags for one pass live in a per-object
slot keyed by the pass id (`obj[state.id]`), and every object that receives a
slot is recorded in `polluted`. -/
structure RStateP where
  store : Id → Option (Tag → Bool)
  polluted : List Id

/-- A freshly created `RenderingState` (`_createState`). -/
def RStateP.empty : RStateP := ⟨fun _ => none, []⟩

/-- `state.set(key, obj)`: create the object's slot on first use (recording
the object as polluted), then set the key. -/
def RStateP.set (s : RStateP) (k : Tag) (obj : Id) : RStateP :=
  match s.store obj with
  | some info =>
    { s with store := fun j => if j = obj then some (fun t => if t = k then true else info t) else s.store j }
  | none =>
    { store := fun j => if j = obj then some (fun t => t = k) else s.store j
      polluted := s.polluted ++ [obj] }

/-- `state.is(key, obj)`. -/
def RStateP.isTag (s : RStateP) (k : Tag) (obj : Id) : Bool :=
  match s.store obj with
  | some info => info k
  | none => false

/-- `state.dispose()`: delete the pass's slot from every polluted object. -/
def RStateP.dispose (s : RStateP) : RStateP :=
  { s with store := fun j => if j ∈ s.polluted then none else s.store j }

/-- The bookkeeping invariant of `RenderingState`: every object that carries
a slot for this pass has been recorded in `polluted`. -/
def RInv (s : RStateP) : Prop :=
  ∀ obj, s.store obj ≠ none → obj ∈ s.polluted

/-- The tag view of a render state. -/
def RStateP.toTags (s : RStateP) : Tags := fun i k => s.isTag k i

/-- The four shapes a render routine's return value can take, as
discriminated by `_capture`. -/
inductive RenderResult where
  | nil
  | virtualComponent
  | virtualHTMLElement
  | other
deriving DecidableEq, Repr

/-- The contract violations raised by `_capture`:
`'Component.render() returned nil.'` and
`'render() must return a plain element or a Component'`. -/
inductive CaptureErr where
  | emptyRenderResult
  | invalidRenderResult
deriving DecidableEq, Repr

/-- The observable inputs of one `_capture` step on a virtual component. -/
structure CaptureIn where
  velId : Id
  compId : Id
  isTopLevel : Bool
  hadComp : Bool
  compHasEl : Bool
  shouldRerender : Bool
  isMounted : Bool
  renderResult : RenderResult

/-- One `_capture` step on a virtual component (the tag- and contract-level
content of lines 342–521; the recursive descent, reference linking and
props bookkeeping are modelled separately): an already-captured descriptor
is a no-op; a missing instance is created and tagged NEW; the top level
always re-renders and is mapped/linked up front; otherwise re-rendering is
decided by `comp.el` and `shouldRerender`, and every non-new descriptor is
tagged UPDATED; a falsy render result or one that is neither a virtual
component nor a virtual HTML element aborts the pass; skipped descriptors
are tagged SKIPPED; the step ends by tagging CAPTURED.  Returns whether the
render routine ran. -/
def captureStep (s : RStateP) (i : CaptureIn) : RStateP × Except CaptureErr Bool :=
  if s.isTag .captured i.velId then (s, .ok false)
  else
    let s := if ¬i.hadComp then s.set .isNew i.velId else s
    let sn : RStateP × Bool :=
      if i.isTopLevel then
        ((((s.set .mapped i.velId).set .mapped i.compId).set .linked i.velId).set .linked i.compId,
          true)
      else
        let need := !i.compHasEl || i.shouldRerender
        let s := if ¬s.isTag .isNew i.velId then s.set .updated i.velId else s
        (s, need)
    let s := sn.1
    if sn.2 then
      match i.renderResult with
      | .nil => (s, .error .emptyRenderResult)
      | .other => (s, .error .invalidRenderResult)
      | _ =>
        let s := if ¬s.isTag .isNew i.velId ∧ i.isMounted then s.set .updated i.velId else s
        (s.set .captured i.velId, .ok true)
    else
      ((s.set .skipped i.velId).set .captured i.velId, .ok false)

/-- The `try { capture; … } finally { state.dispose() }` structure of
`RenderingEngine._render`: run the capture step on a fresh state, run the
rest of the pass (abstracted as a list of tag writes) only on success, and
release the state unconditionally. -/
def runPass (i : CaptureIn) (body : List (Tag × Id)) : Except CaptureErr Unit × RStateP :=
  let p := captureStep RStateP.empty i
  match p.2 with
  | .error e => (.error e, p.1.dispose)
  | .ok _ =>
    let s := body.foldl (fun s kv => s.set kv.1 kv.2) p.1
    (.ok (), s.dispose)

/-! ### Event classifiers used by the verified properties -/

/-- Dispose notifications. -/
def Ev.isDispose : Ev → Bool
  | .dispose _ => true
  | _ => false

/-- Mount notifications. -/
def Ev.isDidMount : Ev → Bool
  | .didMount _ => true
  | _ => false

/-- Update notifications. -/
def Ev.isDidUpdate : Ev → Bool
  | .didUpdate _ => true
  | _ => false

/-- Node creation. -/
def Ev.isCreate : Ev → Bool
  | .createNode _ => true
  | _ => false

/-- Listener re-registration (the two primitives `_updateListeners` uses). -/
def Ev.isListenerSync : Ev → Bool
  | .removeAllListeners _ => true
  | .addListener _ _ => true
  | _ => false

/-- Any mutation of the target tree (structure, attributes, properties,
listeners, content). -/
def Ev.isMutation : Ev → Bool
  | .removeNode _ _ => true
  | .appendNode _ _ => true
  | .insertBefore _ _ _ => true
  | .replaceNode _ _ _ => true
  | .createNode _ => true
  | .setAttr _ _ _ => true
  | .removeAttr _ _ => true
  | .setProp _ _ _ => true
  | .removeProp _ _ => true
  | .removeAllListeners _ => true
  | .addListener _ _ => true
  | .setText _ _ => true
  | .setTagName _ _ => true
  | .emptyEl _ => true
  | .setInnerHTML _ _ => true
  | _ => false

/-- An event that takes a node out of its place in the tree. -/
def Ev.isDetach : Ev → Bool
  | .removeNode _ _ => true
  | .replaceNode _ _ _ => true
  | _ => false

/-- The instances disposed in a trace, in order. -/
def disposedOf (evs : List Ev) : List Id :=
  evs.filterMap fun e =>
    match e with
    | .dispose c => some c
    | _ => none

/-- Scan of the tail of a trace whose last seen event is `prev`: every
dispose notification must be immediately preceded by an event that detaches
or replaces a node. -/
def disposeAfterDetachOkFrom (prev : Ev) : List Ev → Bool
  | [] => true
  | e :: rest =>
    (if e.isDispose then prev.isDetach else true) && disposeAfterDetachOkFrom e rest

/-- Every dispose notification in the trace is immediately preceded by the
detach or replacement of a node. -/
def disposeAfterDetachOk : List Ev → Bool
  | [] => true
  | e :: rest => !e.isDispose && disposeAfterDetachOkFrom e rest

/-! ### Stability: the shape of a second pass over an unchanged tree -/

mutual

/-- The number of descriptors in a captured tree (the fuel a pass needs is
linear in it). -/
def velSize : Vel → Nat
  | .node _ children => 1 + velSizeList children

def velSizeList : List Vel → Nat
  | [] => 0
  | v :: vs => velSize v + velSizeList vs

end

/-- The captured data of a descriptor agrees with the concrete state of the
node it is diffed against: equal text for text nodes; otherwise equal tag
name, pointwise-equal attribute and property hashes (with duplicate-free
declared keys), and unchanged inner HTML when one is declared. -/
def MatchesData (d : VelData) (ed : ElData) : Prop :=
  if d.kind.isText then ed.isText = true ∧ ed.text = d.text
  else
    ed.isText = false ∧ strLower d.tagName = ed.tagName
    ∧ (∀ k, _hashGet ed.attrs k = _hashGet d.attrs k) ∧ (d.attrs.map (·.1)).Nodup
    ∧ (∀ k, _hashGet ed.htmlProps k = _hashGet d.htmlProps k) ∧ (d.htmlProps.map (·.1)).Nodup
    ∧ (match d.innerHTML with
       | none => True
       | some s => ed.hasInnerHTMLFlag = true ∧ ed.innerHTML = s)

mutual

/-- A subtree is stable when a pass over it finds everything already in
place: the descriptor is either skipped (with its instance attached), or a
non-forwarding descriptor whose instance owns a node whose concrete state
matches the captured data, and whose concrete children line up one-for-one
with the captured children. -/
def Stable (env : Env) (st : St) : Vel → Prop
  | .node d children =>
    (st.tags.is d.id .skipped = true ∧ st.velComp d.id ≠ none)
    ∨ (d.isForwarding = false
       ∧ ∃ c e ed,
           st.velComp d.id = some c
           ∧ st.compEl c = some e
           ∧ st.elCompOv e = none
           ∧ st.elChildrenOv e = none
           ∧ env.els e = some ed
           ∧ MatchesData d ed
           ∧ (d.kind.isText = true
              ∨ (d.innerHTML ≠ none ∧ (d.kind.isComponent = true ∨ d.kind.isElement = true))
              ∨ (d.innerHTML = none ∧ (d.kind.isComponent = true ∨ d.kind.isElement = true)
                 ∧ StablePairs env st ed.children children)))

/-- The old concrete child nodes and the new captured children correspond
pairwise: each concrete child carries the component that the new child is
already linked to, that component is neither forwarded, relocated nor
detached, it owns exactly that node, and the child subtree is stable in
turn. -/
def StablePairs (env : Env) (st : St) : List Id → List Vel → Prop
  | [], [] => True
  | ce :: ces, child :: childs =>
    (elCompOf env st ce = some ((st.velComp child.data.id).getD 0)
      ∧ (∃ c, st.velComp child.data.id = some c
          ∧ compIsForwarded env c = false
          ∧ st.tags.is c .relocated = false
          ∧ st.tags.is c .detached = false
          ∧ st.tags.is c .mapped = true
          ∧ st.compEl c = some ce))
    ∧ Stable env st child ∧ StablePairs env st ces childs
  | _, _ => False

end

/-- The merge-level consequence of stability: the stripped old components
and the new children line up pairwise. -/
def StableOlds (env : Env) (st : St) : List Id → List Vel → Prop
  | [], [] => True
  | c :: cs, child :: childs =>
    st.velComp child.data.id = some c
    ∧ st.tags.is c .detached = false
    ∧ st.tags.is c .mapped = true
    ∧ (∃ ce, st.compEl c = some ce)
    ∧ Stable env st child ∧ StableOlds env st cs childs
  | _, _ => False

mutual

/-- Every component descriptor reachable by the notification traversal has
an instance attached. -/
def VCDefined (tg : Tags) (vc : Id → Option Id) : Vel → Prop
  | .node d children =>
    (d.kind.isComponent = true →
      vc d.id ≠ none ∧ (tg.is d.id .skipped = false → VCDefinedList tg vc children))
    ∧ (d.kind.isElement = true → VCDefinedList tg vc children)

def VCDefinedList (tg : Tags) (vc : Id → Option Id) : List Vel → Prop
  | [] => True
  | v :: vs => VCDefined tg vc v ∧ VCDefinedList tg vc vs

end

/-- States that agree on everything a stability argument reads: the link
maps, the node assignments, the id supply, and every tag other than
RENDERED and LINKED (the two tags the update phase adds). -/
def StEquiv (st st' : St) : Prop :=
  (∀ i, st'.velComp i = st.velComp i)
  ∧ (∀ i, st'.compEl i = st.compEl i)
  ∧ (∀ i, st'.elCompOv i = st.elCompOv i)
  ∧ (∀ i, st'.elChildrenOv i = st.elChildrenOv i)
  ∧ st'.fresh = st.fresh
  ∧ (∀ i k, k ≠ Tag.rendered → k ≠ Tag.linked → st'.tags i k = st.tags i k)

/-- What one stable update step leaves behind: events extended by
listener-resynchronisation only, and a state equivalent for stability
purposes. -/
def UpdPost (st st' : St) : Prop :=
  (∃ delta, st'.events = st.events ++ delta ∧ ∀ e ∈ delta, e.isListenerSync = true)
  ∧ StEquiv st st'

/-- A two-level forwarding chain: descriptor 1 forwards to descriptor 2. -/
def velC7 : Vel :=
  Vel.node
    { id := 1, kind := .component 0, tagName := "", attrs := [], htmlProps := [],
      listeners := [], text := "", innerHTML := none,
      isForwarding := true, isForwarded := false }
    [Vel.node
      { id := 2, kind := .component 0, tagName := "", attrs := [], htmlProps := [],
        listeners := [], text := "", innerHTML := none,
        isForwarding := false, isForwarded := false }
      []]

/-- A state for the chain: descriptor 2 is skipped, its instance 8 owns node
99, the forwarding instance 7 owns nothing yet. -/
def stC7 : St :=
  { tags := fun j k => decide (j = 2 ∧ k = Tag.skipped)
    velComp := fun j => if j = 1 then some 7 else if j = 2 then some 8 else none
    compEl := fun c => if c = 8 then some 99 else none
    elCompOv := fun _ => none
    elChildrenOv := fun _ => none
    fresh := 0
    events := [] }

/-- The concrete state of the node a stable second pass diffs against. -/
def edC5 : ElData :=
  { isText := false, tagName := "div", text := "", attrs := [], htmlProps := [],
    listeners := ["click"], innerHTML := "", hasInnerHTMLFlag := false,
    comp := some 10, children := [], parent := none }

/-- Environment of the stable second pass: one node, number 100. -/
def envC5 : Env :=
  { els := fun e => if e = 100 then some edC5 else none
    comps := fun _ => none
    resolveForward := fun _ _ => none }

/-- The unchanged captured root: a component with one listener. -/
def velC5 : Vel :=
  Vel.node
    { id := 1, kind := .component 0, tagName := "div", attrs := [], htmlProps := [],
      listeners := ["click"], text := "", innerHTML := none,
      isForwarding := false, isForwarded := false }
    []

/-- State after capturing the unchanged tree: descriptor 1 is linked to
instance 10 (tagged UPDATED by capture), which owns node 100. -/
def stC5 : St :=
  { tags := fun j k => decide (j = 1 ∧ k = Tag.updated)
    velComp := fun j => if j = 1 then some 10 else none
    compEl := fun c => if c = 10 then some 100 else none
    elCompOv := fun _ => none
    elChildrenOv := fun _ => none
    fresh := 0
    events := [] }

/-! ### The claims of the specification, as stated -/

/-- Claim C1 as stated: after `_linkComponent` the descriptor is linked to
the prior instance iff the instance exists, neither side is already mapped
(or rejected, which sets MAPPED) this pass, and the types are identical;
otherwise the descriptor is marked rejected (MAPPED with no prior
instance). -/
def ClaimC1At (s : LSt) (comp : Option (Id × VKind)) (vcId : Id) (vcKind : VKind) : Prop :=
  let s' := _linkComponent s comp vcId vcKind
  ((∃ ck, comp = some ck ∧ s'.velComp vcId = some ck.1 ∧ s'.tags.is vcId .linked = true)
    ↔ (∃ ck, comp = some ck
        ∧ s.tags.is vcId .mapped = false ∧ s.tags.is ck.1 .mapped = false
        ∧ _isOfSameType ck.2 vcKind = true))
  ∧ (¬(∃ ck, comp = some ck
        ∧ s.tags.is vcId .mapped = false ∧ s.tags.is ck.1 .mapped = false
        ∧ _isOfSameType ck.2 vcKind = true) →
      s'.velComp vcId = none ∧ s'.tags.is vcId .mapped = true)

/-- Claim C2's ordering clause as stated: in a trace, the dispose of an
instance precedes the detachment of its node. -/
def DisposeBeforeDetach (evs : List Ev) (c e : Id) : Prop :=
  ∀ i j pe, evs.get? i = some (.dispose c) → evs.get? j = some (.removeNode pe e) → i < j

/-- Claim C5 as stated, about the trace of a second pass: no target-tree
mutation and no update, mount or dispose notification. -/
def ClaimC5At (delta : List Ev) : Prop :=
  ∀ e ∈ delta, e.isMutation = false
    ∧ e.isDidUpdate = false ∧ e.isDidMount = false ∧ e.isDispose = false

/-- Claim C6's gating as stated: the update notification fires only for
instances that were re-rendered while already mounted. -/
def ClaimC6At (evs : List Ev) (reRenderedWhileMounted : Id → Bool) : Prop :=
  ∀ c, Ev.didUpdate c ∈ evs → reRenderedWhileMounted c = true

/-- A state extends another by events satisfying `P`. -/
def EvExt (st st' : St) (P : Ev → Prop) : Prop :=
  ∃ delta, st'.events = st.events ++ delta ∧ ∀ e ∈ delta, P e

/-- The dispose discipline of a step from `st` to `st'` against the old
child list `olds`: the step only appends events; the instances it disposes
form a subsequence of `olds` (so each is disposed at most once); it never
disposes an instance already flagged detached in `st`; and every dispose it
emits immediately follows the detachment or replacement of a node. -/
def DisposeDisc (st st' : St) (olds : List Id) : Prop :=
  ∃ delta, st'.events = st.events ++ delta
    ∧ List.Sublist (disposedOf delta) olds
    ∧ (∀ c, st.tags.is c .detached = true → Ev.dispose c ∉ delta)
    ∧ disposeAfterDetachOk delta = true

/-- A trivial environment for concrete runs of the merge. -/
def envC2 : Env :=
  { els := fun _ => none, comps := fun _ => none, resolveForward := fun _ _ => none }

/-- A pristine state owning one old child: component 5 holds node 50. -/
def stC2 : St :=
  { tags := fun _ _ => false
    velComp := fun _ => none
    compEl := fun c => if c = 5 then some 50 else none
    elCompOv := fun _ => none
    elChildrenOv := fun _ => none
    fresh := 0
    events := [] }

/-- A chain of forwarding component descriptors over a base descriptor:
`spine` lists the chain components top-down, `b` is the instance of the
first non-forwarding descendant (which this pass skipped). -/
inductive FwdChainTo (st : St) : Vel → Id → List Id → Prop where
  | base (d : VelData) (children : List Vel) (b : Id)
      (hfw : d.isForwarding = false)
      (hvc : st.velComp d.id = some b)
      (hsk : st.tags.is d.id .skipped = true) :
      FwdChainTo st (.node d children) b []
  | step (d : VelData) (fwd : Vel) (crest : List Vel) (b c : Id) (rest : List Id)
      (hfw : d.isForwarding = true)
      (hcomp : d.kind.isComponent = true)
      (hvc : st.velComp d.id = some c)
      (hsk : st.tags.is d.id .skipped = false)
      (hrest : FwdChainTo st fwd b rest) :
      FwdChainTo st (.node d (fwd :: crest)) b (c :: rest)

/-!
## Theorems

The verified properties, one per claim, with the helper lemmas they rest on.
-/

theorem rinv_empty : RInv RStateP.empty := by
  intro o h
  simp [RStateP.empty] at h

theorem rinv_set (s : RStateP) (k : Tag) (o : Id) (h : RInv s) : RInv (s.set k o) := by
  intro obj hs
  cases hso : s.store o with
  | some info =>
    simp only [RStateP.set, hso] at hs ⊢
    by_cases hj : obj = o
    · subst hj
      exact h obj (by simp [hso])
    · simp only [if_neg hj] at hs
      exact h obj hs
  | none =>
    simp only [RStateP.set, hso] at hs ⊢
    by_cases hj : obj = o
    · subst hj
      simp
    · simp only [if_neg hj] at hs
      exact List.mem_append_left _ (h obj hs)

theorem rinv_captureStep (s : RStateP) (i : CaptureIn) (h : RInv s) :
    RInv (captureStep s i).1 := by
  unfold captureStep
  repeat' first
  | assumption
  | apply rinv_set
  | split
  | dsimp only

theorem rinv_foldl (body : List (Tag × Id)) :
    ∀ s : RStateP, RInv s → RInv (body.foldl (fun s kv => s.set kv.1 kv.2) s) := by
  induction body with
  | nil => intro s h; exact h
  | cons kv rest ih =>
    intro s h
    exact ih _ (rinv_set s kv.1 kv.2 h)

theorem rstate_dispose_store (s : RStateP) (h : RInv s) (obj : Id) :
    (s.dispose).store obj = none := by
  unfold RStateP.dispose
  by_cases hc : obj ∈ s.polluted
  · simp [hc]
  · simp only [if_neg hc]
    cases hso : s.store obj with
    | none => rfl
    | some info => exact absurd (h obj (by simp [hso])) hc

/-- C4: every per-pass tag set during a pass — whether the pass completes
normally or aborts with a contract violation — is removed from every
descriptor and instance before `_render` returns, so no tag set in one pass
is observable afterwards. -/
theorem c4_no_tag_leaks (i : CaptureIn) (body : List (Tag × Id)) (obj : Id) :
    ((runPass i body).2).store obj = none := by
  unfold runPass
  have hinv : RInv (captureStep RStateP.empty i).1 :=
    rinv_captureStep _ _ rinv_empty
  cases hr : (captureStep RStateP.empty i).2 with
  | error e =>
    simp only [hr]
    exact rstate_dispose_store _ hinv obj
  | ok b =>
    simp only [hr]
    exact rstate_dispose_store _ (rinv_foldl body _ hinv) obj

/-- C3: a render routine that returns a falsy value fails the capture with
the EmptyRenderResult contract violation, one that returns neither a
component nor an element descriptor fails it with InvalidRenderResult, and
in both cases the pass aborts with its transient state released. -/
theorem c3_render_contract (i : CaptureIn) (body : List (Tag × Id))
    (hrr : i.isTopLevel = true ∨ i.compHasEl = false ∨ i.shouldRerender = true) :
    (i.renderResult = .nil → (runPass i body).1 = .error .emptyRenderResult)
    ∧ (i.renderResult = .other → (runPass i body).1 = .error .invalidRenderResult)
    ∧ (∀ obj, ((runPass i body).2).store obj = none) := by
  have hstore : ∀ obj, ((runPass i body).2).store obj = none := by
    intro obj
    unfold runPass
    have hinv : RInv (captureStep RStateP.empty i).1 :=
      rinv_captureStep _ _ rinv_empty
    cases hr : (captureStep RStateP.empty i).2 with
    | error e =>
      simp only [hr]
      exact rstate_dispose_store _ hinv obj
    | ok b =>
      simp only [hr]
      exact rstate_dispose_store _ (rinv_foldl body _ hinv) obj
  have hcap : ∀ er : CaptureErr,
      (captureStep RStateP.empty i).2 = .error er → (runPass i body).1 = .error er := by
    intro er her
    unfold runPass
    simp only [her]
  have hempty : RStateP.empty.isTag .captured i.velId = false := by
    simp [RStateP.empty, RStateP.isTag]
  refine ⟨?_, ?_, hstore⟩
  · intro hnil
    apply hcap
    unfold captureStep
    simp only [hempty, Bool.false_eq_true, if_false, hnil]
    rcases hrr with htop | hel | hsr
    · simp [htop]
    · cases htopb : i.isTopLevel with
      | true => simp [htopb]
      | false => simp [htopb, hel]
    · cases htopb : i.isTopLevel with
      | true => simp [htopb]
      | false => simp [htopb, hsr]
  · intro hother
    apply hcap
    unfold captureStep
    simp only [hempty, Bool.false_eq_true, if_false, hother]
    rcases hrr with htop | hel | hsr
    · simp [htop]
    · cases htopb : i.isTopLevel with
      | true => simp [htopb]
      | false => simp [htopb, hel]
    · cases htopb : i.isTopLevel with
      | true => simp [htopb]
      | false => simp [htopb, hsr]

/-- Witness for C3 at a concrete pass. -/
theorem c3_render_contract_witness :
    (runPass
      { velId := 0, compId := 1, isTopLevel := true, hadComp := true,
        compHasEl := true, shouldRerender := false, isMounted := false,
        renderResult := .nil } []).1 = .error .emptyRenderResult :=
  (c3_render_contract _ [] (Or.inl rfl)).1 rfl

/-! ### Key-diff lemmas (`_updateHash`) -/

theorem hashGet_mem {l : List (String × String)} {p : String × String}
    (hnd : (l.map Prod.fst).Nodup) (hp : p ∈ l) : _hashGet l p.1 = some p.2 := by
  induction l with
  | nil => cases hp
  | cons q rest ih =>
    rw [List.map_cons, List.nodup_cons] at hnd
    rcases List.mem_cons.mp hp with rfl | hmem
    · simp [_hashGet]
    · have hq : ¬(q.1 = p.1) := by
        intro he
        exact hnd.1 (he ▸ List.mem_map_of_mem Prod.fst hmem)
      have := ih hnd.2 hmem
      simpa [_hashGet, List.find?_cons, hq] using this

theorem hashGet_eq_some {l : List (String × String)} {k v : String}
    (h : _hashGet l k = some v) : ∃ p ∈ l, p.1 = k ∧ p.2 = v := by
  unfold _hashGet at h
  cases hf : l.find? (fun p => p.1 = k) with
  | none => simp [hf] at h
  | some a =>
    simp only [hf, Option.map_some'] at h
    refine ⟨a, List.mem_of_find?_eq_some hf, ?_, Option.some.inj h⟩
    have := List.find?_some hf
    simpa using this

theorem hashGet_eq_none {l : List (String × String)} {k : String}
    (h : _hashGet l k = none) : ∀ p ∈ l, p.1 ≠ k := by
  intro p hp
  unfold _hashGet at h
  cases hf : l.find? (fun q => q.1 = k) with
  | some a => simp [hf] at h
  | none =>
    have := List.find?_eq_none.mp hf p hp
    simpa using this

/-- C9 (amended): attributes and properties are key-diffed — a key in both
hashes with a changed value is set, a key in both with an equal value causes
no mutation, a key only in the old hash is removed — while event listeners
are synchronised wholesale (all removed, then all of the new ones added,
without comparison), and text content is written only when it changed. -/
theorem c9_key_diff_amended (elId : Id) (old new : List (String × String))
    (hnd : (new.map Prod.fst).Nodup) :
    (∀ k v w, _hashGet old k = some v → _hashGet new k = some w → v ≠ w →
      Ev.setAttr elId k w ∈ _updateHash old new (Ev.setAttr elId) (Ev.removeAttr elId))
    ∧ (∀ k v, _hashGet old k = some v → _hashGet new k = some v →
        (∀ w, Ev.setAttr elId k w ∉ _updateHash old new (Ev.setAttr elId) (Ev.removeAttr elId))
        ∧ Ev.removeAttr elId k ∉ _updateHash old new (Ev.setAttr elId) (Ev.removeAttr elId))
    ∧ (∀ k v, _hashGet old k = some v → _hashGet new k = none →
        Ev.removeAttr elId k ∈ _updateHash old new (Ev.setAttr elId) (Ev.removeAttr elId))
    ∧ (∀ ls, _updateListeners elId ls
        = Ev.removeAllListeners elId :: ls.map (Ev.addListener elId))
    ∧ (∀ (ed : ElData) (d : VelData), d.kind.isText = true → ed.text = d.text →
        _updateDOMElement ed elId d = []) := by
  refine ⟨?_, ?_, ?_, fun ls => rfl, ?_⟩
  · intro k v w hov hnw hne
    obtain ⟨a, ha, hak, hav⟩ := hashGet_eq_some hnw
    apply List.mem_append_left
    apply List.mem_filterMap.mpr
    refine ⟨a, ha, ?_⟩
    rw [hak, hav, if_pos]
    rw [hov]
    simp [hne]
  · intro k v hov hnv
    constructor
    · intro w hmem
      rcases List.mem_append.mp hmem with hin | hin
      · obtain ⟨a, ha, hfa⟩ := List.mem_filterMap.mp hin
        by_cases hcond : _hashGet old a.1 ≠ some a.2
        · rw [if_pos hcond] at hfa
          have hfa' := Option.some.inj hfa
          injection hfa' with h1 hak hav
          have hgm := hak ▸ hashGet_mem hnd ha
          rw [hnv] at hgm
          exact absurd (by rw [hak, hov]; exact congrArg some (Option.some.inj hgm)) hcond
        · rw [if_neg hcond] at hfa
          simp at hfa
      · obtain ⟨a, ha, hfa⟩ := List.mem_filterMap.mp hin
        by_cases hcond : (new.map Prod.fst).contains a.1
        · rw [if_pos hcond] at hfa
          simp at hfa
        · rw [if_neg hcond] at hfa
          simp at hfa
    · intro hmem
      rcases List.mem_append.mp hmem with hin | hin
      · obtain ⟨a, ha, hfa⟩ := List.mem_filterMap.mp hin
        by_cases hcond : _hashGet old a.1 ≠ some a.2
        · rw [if_pos hcond] at hfa
          simp at hfa
        · rw [if_neg hcond] at hfa
          simp at hfa
      · obtain ⟨a, ha, hfa⟩ := List.mem_filterMap.mp hin
        by_cases hcond : (new.map Prod.fst).contains a.1
        · rw [if_pos hcond] at hfa
          simp at hfa
        · rw [if_neg hcond] at hfa
          have hfa' := Option.some.inj hfa
          injection hfa' with h1 hak
          obtain ⟨b, hb, hbk, _⟩ := hashGet_eq_some hnv
          apply hcond
          have hmm : a.1 ∈ new.map Prod.fst := hak ▸ hbk ▸ List.mem_map_of_mem Prod.fst hb
          simpa [List.elem_iff] using hmm
  · intro k v hov hnone
    obtain ⟨a, ha, hak, hav⟩ := hashGet_eq_some hov
    apply List.mem_append_right
    apply List.mem_filterMap.mpr
    refine ⟨a, ha, ?_⟩
    have hcond : ¬(new.map Prod.fst).contains a.1 := by
      intro hc
      have : a.1 ∈ new.map Prod.fst := by simpa [List.elem_iff] using hc
      obtain ⟨b, hb, hbk⟩ := List.mem_map.mp this
      exact hashGet_eq_none hnone b hb (hak ▸ hbk)
    rw [if_neg hcond, hak]
  · intro ed d ht hte
    simp [_updateDOMElement, ht, hte]

/-- Witness for C9 at concrete hashes. -/
theorem c9_key_diff_amended_witness :
    Ev.setAttr 3 "class" "b" ∈
      _updateHash [("class", "a")] [("class", "b")] (Ev.setAttr 3) (Ev.removeAttr 3) :=
  (c9_key_diff_amended 3 [("class", "a")] [("class", "b")] (by decide)).1
    "class" "a" "b" (by decide) (by decide) (by decide)

/-! ### Event-trace plumbing -/

theorem evext_refl {P : Ev → Prop} (st : St) : EvExt st st P :=
  ⟨[], by simp, by simp⟩

theorem evext_of_events_eq {P : Ev → Prop} {st st' : St}
    (h : st'.events = st.events) : EvExt st st' P :=
  ⟨[], by simp [h], by simp⟩

theorem evext_emit {P : Ev → Prop} (st : St) (evs : List Ev)
    (h : ∀ e ∈ evs, P e) : EvExt st (st.emit evs) P :=
  ⟨evs, rfl, h⟩

theorem evext_trans {P : Ev → Prop} {st st' st'' : St}
    (h1 : EvExt st st' P) (h2 : EvExt st' st'' P) : EvExt st st'' P := by
  obtain ⟨d1, he1, hp1⟩ := h1
  obtain ⟨d2, he2, hp2⟩ := h2
  refine ⟨d1 ++ d2, by rw [he2, he1, List.append_assoc], ?_⟩
  intro e he
  rcases List.mem_append.mp he with h | h
  · exact hp1 e h
  · exact hp2 e h

theorem updateHash_mem {old new : List (String × String)}
    {u : String → String → Ev} {r : String → Ev} {e : Ev}
    (he : e ∈ _updateHash old new u r) :
    (∃ k v, e = u k v) ∨ (∃ k, e = r k) := by
  unfold _updateHash at he
  rcases List.mem_append.mp he with h | h
  · obtain ⟨a, _, hfa⟩ := List.mem_filterMap.mp h
    split at hfa
    · exact Or.inl ⟨a.1, a.2, (Option.some.inj hfa).symm⟩
    · simp at hfa
  · obtain ⟨a, _, hfa⟩ := List.mem_filterMap.mp h
    split at hfa
    · simp at hfa
    · exact Or.inr ⟨a.1, (Option.some.inj hfa).symm⟩

theorem updateDOM_isMutation (ed : ElData) (el : Id) (d : VelData) :
    ∀ e ∈ _updateDOMElement ed el d, e.isMutation = true := by
  intro e he
  unfold _updateDOMElement at he
  split at he
  · split at he
    · simp only [List.mem_singleton] at he
      subst he; rfl
    · simp at he
  · rcases List.mem_append.mp he with he | he
    · rcases List.mem_append.mp he with he | he
      · rcases List.mem_append.mp he with he | he
        · rcases List.mem_append.mp he with he | he
          · split at he
            · simp only [List.mem_singleton] at he
              subst he; rfl
            · simp at he
          · rcases updateHash_mem he with ⟨k, v, rfl⟩ | ⟨k, rfl⟩ <;> rfl
        · rcases updateHash_mem he with ⟨k, v, rfl⟩ | ⟨k, rfl⟩ <;> rfl
      · unfold _updateListeners at he
        rcases List.mem_cons.mp he with rfl | he
        · rfl
        · obtain ⟨a, _, rfl⟩ := List.mem_map.mp he
          rfl
    · split at he
      · simp at he
      · split at he
        · rcases List.mem_cons.mp he with rfl | he
          · rfl
          · simp only [List.mem_singleton] at he
            subst he; rfl
        · split at he
          · simp only [List.mem_singleton] at he
            subst he; rfl
          · simp at he

theorem mutation_not_notification {e : Ev} (h : e.isMutation = true) :
    e.isDidMount = false ∧ e.isDidUpdate = false ∧ e.isDispose = false := by
  cases e <;> simp_all [Ev.isMutation, Ev.isDidMount, Ev.isDidUpdate, Ev.isDispose]

theorem propagateForwardedEl_evext {P : Ev → Prop} (hP : P Ev.assertFail)
    (st : St) (b : Bool) (anc : List Id) (el : Id) :
    EvExt st (_propagateForwardedEl st b anc el) P := by
  unfold _propagateForwardedEl
  split
  · induction anc generalizing st with
    | nil => exact evext_refl st
    | cons a rest ih =>
      simp only [List.foldl_cons]
      refine evext_trans ?_ (ih _)
      cases h : st.velComp a with
      | some c =>
        simp only [h]
        exact evext_of_events_eq rfl
      | none =>
        simp only [h]
        exact evext_emit _ _ (by intro e he; simp only [List.mem_singleton] at he; subst he; exact hP)
  · exact evext_refl st

theorem createDOMElement_evext (st : St) (d : VelData) {P : Ev → Prop}
    (hmut : ∀ e, e.isMutation = true → P e) :
    EvExt st (_createDOMElement st d).1 P := by
  refine ⟨Ev.createNode st.fresh :: _updateDOMElement (freshElData d) st.fresh d, rfl, ?_⟩
  intro e he
  rcases List.mem_cons.mp he with rfl | he
  · exact hmut _ rfl
  · exact hmut _ (updateDOM_isMutation _ _ _ e he)

/-- Adoption mode and fresh-node creation issue no mount and no update
notifications, at any fuel. -/
theorem adopt_clean (env : Env) : ∀ fuel : Nat,
    (∀ st vel chain el,
      EvExt st (_adopt env fuel st vel chain el)
        (fun e => e.isDidMount = false ∧ e.isDidUpdate = false))
    ∧ (∀ ex vs pe st,
      EvExt st (_adoptChildren env fuel ex vs pe st)
        (fun e => e.isDidMount = false ∧ e.isDidUpdate = false))
    ∧ (∀ st vel chain,
      EvExt st (_createEl env fuel st vel chain).1
        (fun e => e.isDidMount = false ∧ e.isDidUpdate = false))
    ∧ (∀ kids chain pe st,
      EvExt st (_createElKids env fuel kids chain pe st)
        (fun e => e.isDidMount = false ∧ e.isDidUpdate = false)) := by
  have hmut : ∀ e : Ev, e.isMutation = true →
      e.isDidMount = false ∧ e.isDidUpdate = false :=
    fun e he => ⟨(mutation_not_notification he).1, (mutation_not_notification he).2.1⟩
  have hassert : (Ev.assertFail).isDidMount = false ∧ (Ev.assertFail).isDidUpdate = false := by
    constructor <;> rfl
  intro fuel
  induction fuel with
  | zero =>
    refine ⟨?_, ?_, ?_, ?_⟩
    · intro st vel chain el
      exact evext_emit _ _ (by intro e he; simp only [List.mem_singleton] at he; subst he; exact ⟨rfl, rfl⟩)
    · intro ex vs pe st
      exact evext_emit _ _ (by intro e he; simp only [List.mem_singleton] at he; subst he; exact ⟨rfl, rfl⟩)
    · intro st vel chain
      exact evext_emit _ _ (by intro e he; simp only [List.mem_singleton] at he; subst he; exact ⟨rfl, rfl⟩)
    · intro kids chain pe st
      exact evext_emit _ _ (by intro e he; simp only [List.mem_singleton] at he; subst he; exact ⟨rfl, rfl⟩)
  | succ fuel ih =>
    obtain ⟨ihA, ihB, ihC, ihD⟩ := ih
    refine ⟨?_, ?_, ?_, ?_⟩
    · intro st vel chain el
      obtain ⟨d, children⟩ := vel
      unfold _adopt
      by_cases hb : ((d.kind.isComponent || d.kind.isElement) && (effElData env el).isText) = true
      · rw [if_pos hb]
        refine evext_emit _ _ ?_
        intro e he
        simp only [List.mem_singleton] at he
        subst he
        exact ⟨rfl, rfl⟩
      · rw [if_neg hb]
        cases hvc : st.velComp d.id with
        | none =>
          refine evext_emit _ _ ?_
          intro e he
          simp only [List.mem_singleton] at he
          subst he
          exact hassert
        | some compId =>
          dsimp only
          refine evext_trans (evext_of_events_eq
            (show ({ st with compEl := fun c => if c = compId then some el
                else st.compEl c } : St).events = st.events from rfl)) ?_
          refine evext_trans (evext_emit _ (_updateDOMElement (effElData env el) el d) ?_) ?_
          · intro e he
            exact hmut e (updateDOM_isMutation _ _ _ e he)
          · refine evext_trans (propagateForwardedEl_evext hassert _ d.isForwarded chain el) ?_
            by_cases hk : (d.kind.isComponent || d.kind.isElement) = true
            · rw [if_pos hk]
              exact ihB _ _ _ _
            · rw [if_neg hk]
              exact evext_refl _
    · intro ex vs pe st
      unfold _adoptChildren
      split
      · exact evext_refl _
      · refine evext_trans ?_ (ihB _ _ _ _)
        exact evext_emit _ _ (by intro e he; simp only [List.mem_singleton] at he; subst he; exact ⟨rfl, rfl⟩)
      · dsimp only
        rename_i v vs'
        refine evext_trans (ihC st v []) ?_
        refine evext_trans ?_ (ihB _ _ _ _)
        exact evext_emit _ _ (by intro e he; simp only [List.mem_singleton] at he; subst he; exact ⟨rfl, rfl⟩)
      · dsimp only
        rename_i e1 es v vs'
        split
        · exact evext_trans (ihA st (_getForwardedElC v).1 (_getForwardedElC v).2 e1) (ihB _ _ _ _)
        · refine evext_trans ?_ (ihB _ _ _ _)
          exact evext_emit _ _ (by intro e he; simp only [List.mem_singleton] at he; subst he; exact ⟨rfl, rfl⟩)
    · intro st vel chain
      obtain ⟨d, children⟩ := vel
      unfold _createEl
      dsimp only
      have h1 : EvExt st (_createDOMElement st d).1
          (fun e => e.isDidMount = false ∧ e.isDidUpdate = false) :=
        createDOMElement_evext st d hmut
      generalize hp : _createDOMElement st d = p at h1 ⊢
      obtain ⟨st1, elId⟩ := p
      dsimp only at h1 ⊢
      refine evext_trans h1 ?_
      cases hvc : st1.velComp d.id with
      | some c =>
        dsimp only
        refine evext_trans (evext_of_events_eq
          (show ({ st1 with compEl := fun j => if j = c then some elId
              else st1.compEl j } : St).events = st1.events from rfl)) ?_
        refine evext_trans (propagateForwardedEl_evext hassert _ d.isForwarded chain elId) ?_
        split
        · exact ihD _ _ _ _
        · exact evext_refl _
      | none =>
        dsimp only
        refine evext_trans (evext_emit _ [Ev.assertFail] ?_) ?_
        · intro e he
          simp only [List.mem_singleton] at he
          subst he
          exact hassert
        · refine evext_trans (propagateForwardedEl_evext hassert _ d.isForwarded chain elId) ?_
          split
          · exact ihD _ _ _ _
          · exact evext_refl _
    · intro kids chain pe st
      unfold _createElKids
      split
      · exact evext_refl _
      · dsimp only
        rename_i v vs'
        refine evext_trans (ihC st v chain) ?_
        refine evext_trans ?_ (ihD _ _ _ _)
        exact evext_emit _ _ (by intro e he; simp only [List.mem_singleton] at he; subst he; exact ⟨rfl, rfl⟩)

/-- C10: in an adoption pass the engine fires no update notification — the
notification traversal runs only on the non-adoption branch — and no mount
notification is issued for the nodes created and appended for virtual
children without a concrete counterpart. -/
theorem c10_adopt_no_notifications (env : Env) (fuel : Nat) (st : St) (vel : Vel)
    (rootEl : Id) :
    ∃ delta, (renderPass env fuel st vel rootEl true).events = st.events ++ delta
      ∧ ∀ e ∈ delta, e.isDidMount = false ∧ e.isDidUpdate = false := by
  have h := (adopt_clean env fuel).1 st (_getForwardedElC vel).1 (_getForwardedElC vel).2 rootEl
  obtain ⟨delta, he, hp⟩ := h
  exact ⟨delta, by simpa [renderPass] using he, hp⟩

/-! ### Reference linking (C1) -/

theorem tags_is_set (t : Tags) (i j : Id) (k k' : Tag) :
    (t.set i k).is j k' = if j = i ∧ k' = k then true else t.is j k' := rfl

/-- C1 counterexample: on a pair that is already mapped and linked this
pass, `_linkComponent` leaves the existing link untouched — the descriptor
stays linked to its prior instance and is not marked rejected — so the
claimed "linked iff not already mapped…, otherwise rejected" fails. -/
theorem c1_counterexample :
    ¬ClaimC1At
      { tags := fun i k => decide ((i = 1 ∨ i = 11) ∧ (k = Tag.mapped ∨ k = Tag.linked)),
        velComp := fun j => if j = 1 then some 11 else none }
      (some (11, .component 7)) 1 (.component 7) := by
  intro h
  obtain ⟨hiff, hrej⟩ := h
  have hL := hiff.mp ⟨(11, .component 7), rfl, by decide, by decide⟩
  obtain ⟨ck, hck, hm1, hm2, hty⟩ := hL
  exact absurd hm1 (by decide)

/-- C1 (amended): for a pair not yet touched this pass — neither side mapped
or linked, and the descriptor not already pointing at the instance —
`_linkComponent` links the descriptor to the prior instance iff the prior
instance exists and the concrete types are identical; otherwise the
descriptor is marked rejected (no prior instance, MAPPED, not linked).
Moreover (reference stability, at concrete ids): a descriptor carrying the
same reference name and the same concrete type as in the previous pass is
linked to the same instance, and the subsequent child merge — even with the
descriptor's position among its siblings swapped — produces no dispose, no
create and no re-mount: the out-of-order node is detached and re-inserted. -/
theorem c1_link_amended :
    (∀ (s : LSt) (comp : Option (Id × VKind)) (vcId : Id) (vcKind : VKind),
      s.tags.is vcId .mapped = false →
      s.tags.is vcId .linked = false →
      (∀ c k, comp = some (c, k) →
        s.tags.is c .mapped = false ∧ s.velComp vcId ≠ some c) →
      (((∃ ck, comp = some ck
          ∧ (_linkComponent s comp vcId vcKind).velComp vcId = some ck.1
          ∧ (_linkComponent s comp vcId vcKind).tags.is vcId .linked = true)
        ↔ (∃ ck, comp = some ck ∧ _isOfSameType ck.2 vcKind = true))
       ∧ (¬(∃ ck, comp = some ck ∧ _isOfSameType ck.2 vcKind = true) →
          (_linkComponent s comp vcId vcKind).velComp vcId = none
          ∧ (_linkComponent s comp vcId vcKind).tags.is vcId .mapped = true
          ∧ (_linkComponent s comp vcId vcKind).tags.is vcId .linked = false)))
    ∧ (let entries := captureEntries
          [("foo", (1, .component 7)), ("bar", (2, .component 7))]
          [("foo", some (11, .component 7)), ("bar", some (12, .component 7))]
          [] [] [] []
       let s1 := linkEntries { tags := fun _ _ => false, velComp := fun _ => none } entries
       let st0 : St :=
         { tags := s1.tags, velComp := s1.velComp,
           compEl := fun c => if c = 11 then some 101 else if c = 12 then some 102 else none,
           elCompOv := fun _ => none, elChildrenOv := fun _ => none,
           fresh := 1000, events := [] }
       let env0 : Env :=
         { els := fun e =>
             if e = 101 then
               some { isText := false, tagName := "div", text := "", attrs := [],
                      htmlProps := [], listeners := [], innerHTML := "",
                      hasInnerHTMLFlag := false, comp := some 11, children := [],
                      parent := some 100 }
             else if e = 102 then
               some { isText := false, tagName := "div", text := "", attrs := [],
                      htmlProps := [], listeners := [], innerHTML := "",
                      hasInnerHTMLFlag := false, comp := some 12, children := [],
                      parent := some 100 }
             else none
           comps := fun c =>
             if c = 11 ∨ c = 12 then
               some { kind := .component 7, mounted := true, isForwarded := false }
             else none
           resolveForward := fun _ _ => none }
       let vel1 : Vel := .node
         { id := 1, kind := .component 7, tagName := "div", attrs := [], htmlProps := [],
           listeners := [], text := "", innerHTML := none,
           isForwarding := false, isForwarded := false } []
       let vel2 : Vel := .node
         { id := 2, kind := .component 7, tagName := "div", attrs := [], htmlProps := [],
           listeners := [], text := "", innerHTML := none,
           isForwarding := false, isForwarded := false } []
       let stF := _mergeChildren env0 20 10 100 [12, 11] [vel1, vel2] st0
       s1.velComp 1 = some 11 ∧ s1.velComp 2 = some 12
         ∧ stF.velComp 1 = some 11
         ∧ disposedOf stF.events = []
         ∧ stF.events.all (fun e => !e.isDidMount) = true
         ∧ stF.events.all (fun e => !e.isCreate) = true) := by
  constructor
  · intro s comp vcId vcKind hvm hvl hcm
    cases comp with
    | none =>
      constructor
      · constructor
        · rintro ⟨ck, hck, -⟩
          cases hck
        · rintro ⟨ck, hck, -⟩
          cases hck
      · rintro -
        refine ⟨?_, ?_, ?_⟩
        · simp [_linkComponent, _reject]
        · simp [_linkComponent, _reject, Tags.is_set_self]
        · simp only [_linkComponent, _reject]
          rw [tags_is_set]
          simpa using hvl
    | some ck =>
      obtain ⟨c, k⟩ := ck
      obtain ⟨hcmap, hvcne⟩ := hcm c k rfl
      have hnm : _isMapped s c vcId = false := by
        simp [_isMapped, hvm, hcmap]
      have hnl : (_isLinked s c vcId).1 = false ∧ (_isLinked s c vcId).2 = s := by
        simp [_isLinked, hvcne]
      by_cases hty : _isOfSameType k vcKind = true
      · have hs' : _linkComponent s (some (c, k)) vcId vcKind = _link s c vcId := by
          simp [_linkComponent, hnm, hnl.1, hnl.2, hty]
        constructor
        · constructor
          · rintro -
            exact ⟨(c, k), rfl, hty⟩
          · rintro -
            refine ⟨(c, k), rfl, ?_, ?_⟩
            · simp [hs', _link]
            · simp only [hs', _link]
              rw [tags_is_set]
              simp
        · rintro hne
          exact absurd ⟨(c, k), rfl, hty⟩ hne
      · have hs' : _linkComponent s (some (c, k)) vcId vcKind = _reject s (some c) vcId := by
          simp [_linkComponent, hnm, hnl.1, hnl.2, hty]
        constructor
        · constructor
          · rintro ⟨ck', hck', hvc', -⟩
            cases hck'
            rw [hs'] at hvc'
            simp [_reject] at hvc'
          · rintro ⟨ck', hck', hty'⟩
            cases hck'
            exact absurd hty' hty
        · rintro -
          refine ⟨?_, ?_, ?_⟩
          · simp [hs', _reject]
          · simp only [hs', _reject]
            rw [tags_is_set, tags_is_set]
            simp
          · simp only [hs', _reject]
            rw [tags_is_set, tags_is_set]
            simpa using hvl
  · decide

/-- Witness for C1 at a fresh pair with an existing, same-typed instance. -/
theorem c1_link_amended_witness :
    (_linkComponent { tags := fun _ _ => false, velComp := fun _ => none }
      (some (3, .component 9)) 4 (.component 9)).velComp 4 = some 3 := by
  have h := (c1_link_amended.1
    { tags := fun _ _ => false, velComp := fun _ => none }
    (some (3, .component 9)) 4 (.component 9)
    rfl rfl (by intro c k hck; cases hck; exact ⟨rfl, by simp⟩)).1.mpr
    ⟨(3, .component 9), rfl, by decide⟩
  obtain ⟨ck, hck, hvc, -⟩ := h
  cases hck
  exact hvc

/-! ### Relocation (C8) -/

theorem propagateLinking_component_eq (s : LSt) (cid : Id) (ckind : VKind)
    (cparent : Option CompUp) (vid : Id) (n : Nat) (vparent vprelim : Option VelUp) :
    _propagateLinking s (some (.mk cid ckind cparent))
        (.mk vid (.component n) vparent vprelim) false
    = (if ¬(_plRecurse s cparent vparent vprelim).1 then
        ((_plRecurse s cparent vparent vprelim).1,
          { (_plRecurse s cparent vparent vprelim).2 with
            tags := (((_plRecurse s cparent vparent vprelim).2.tags.set vid
              Tag.relocated).set cid Tag.relocated) })
      else _plRecurse s cparent vparent vprelim) := by
  unfold _propagateLinking
  simp [VKind.isComponent]

/-- C8: a component pair (prior instance present, matched or rejected) whose
structural or preliminary ancestor chain cannot be confirmed is tagged
RELOCATED on both sides — the virtual component and the instance — and the
update phase's pre-merge strip detaches the nodes of relocated children from
the old child sequence with plain node removals (no dispose, no in-place
update), excluding them from the dual-cursor merge. -/
theorem c8_relocation_handling :
    (∀ (s : LSt) (cid : Id) (ckind : VKind) (cparent : Option CompUp)
        (vid : Id) (n : Nat) (vparent vprelim : Option VelUp),
      (_propagateLinking s (some (.mk cid ckind cparent))
          (.mk vid (.component n) vparent vprelim) false).1 = false →
      ((_propagateLinking s (some (.mk cid ckind cparent))
          (.mk vid (.component n) vparent vprelim) false).2.tags.is vid .relocated = true
        ∧ (_propagateLinking s (some (.mk cid ckind cparent))
          (.mk vid (.component n) vparent vprelim) false).2.tags.is cid .relocated = true))
    ∧ (∀ (env : Env) (pc pe : Id) (kids : List Id) (st : St),
        ∃ delta, (stripOld env pc pe kids st).2.events = st.events ++ delta
          ∧ ∀ e ∈ delta, ∃ ce, e = Ev.removeNode pe ce)
    ∧ (∀ (env : Env) (pc pe : Id) (kids : List Id) (st : St) (c : Id),
        c ∈ (stripOld env pc pe kids st).1 → st.tags.is c .relocated = false) := by
  refine ⟨?_, ?_, ?_⟩
  · intro s cid ckind cparent vid n vparent vprelim h
    rw [propagateLinking_component_eq] at h ⊢
    by_cases hr1 : (_plRecurse s cparent vparent vprelim).1 = true
    · rw [if_neg (by simp [hr1])] at h
      exact absurd h (by simp [hr1])
    · rw [if_pos hr1]
      constructor
      · rw [tags_is_set]
        split
        · rfl
        · rw [tags_is_set]
          simp
      · rw [tags_is_set]
        simp
  · intro env pc pe kids st
    induction kids generalizing st with
    | nil => exact ⟨[], by simp [stripOld], by simp⟩
    | cons e rest ih =>
      unfold stripOld
      split
      · obtain ⟨delta, hd, hp⟩ := ih (st.emit [Ev.removeNode pe e])
        refine ⟨Ev.removeNode pe e :: delta, ?_, ?_⟩
        · rw [hd]
          simp [St.emit]
        · intro x hx
          rcases List.mem_cons.mp hx with rfl | hx
          · exact ⟨e, rfl⟩
          · exact hp x hx
      · split
        · obtain ⟨delta, hd, hp⟩ := ih (st.emit [Ev.removeNode pe e])
          refine ⟨Ev.removeNode pe e :: delta, ?_, ?_⟩
          · rw [hd]
            simp [St.emit]
          · intro x hx
            rcases List.mem_cons.mp hx with rfl | hx
            · exact ⟨e, rfl⟩
            · exact hp x hx
        · split
          · obtain ⟨delta, hd, hp⟩ := ih (st.emit [Ev.removeNode pe e])
            refine ⟨Ev.removeNode pe e :: delta, ?_, ?_⟩
            · rw [hd]
              simp [St.emit]
            · intro x hx
              rcases List.mem_cons.mp hx with rfl | hx
              · exact ⟨e, rfl⟩
              · exact hp x hx
          · obtain ⟨delta, hd, hp⟩ := ih st
            exact ⟨delta, by simpa using hd, hp⟩
  · intro env pc pe kids st c
    induction kids generalizing st with
    | nil =>
      intro h
      simp [stripOld] at h
    | cons e rest ih =>
      intro h
      unfold stripOld at h
      split at h
      · exact ih (st.emit [Ev.removeNode pe e]) h
      · split at h
        · exact ih (st.emit [Ev.removeNode pe e]) h
        · split at h
          · exact ih (st.emit [Ev.removeNode pe e]) h
          · rename_i c2 hrel
            rcases List.mem_cons.mp (by simpa using h) with rfl | hm
            · simpa using hrel
            · exact ih st hm

/-- Witness for C8 at a concrete failed chain. -/
theorem c8_relocation_handling_witness :
    ((_propagateLinking { tags := fun _ _ => false, velComp := fun _ => none }
        (some (.mk 9 (.component 1) none))
        (.mk 5 (.component 1) none none) false).2.tags.is 5 .relocated = true)
    ∧ (∃ delta,
        (stripOld
          { els := fun _ => none, comps := fun _ => none, resolveForward := fun _ _ => none }
          1 2 [7]
          { tags := fun _ _ => false, velComp := fun _ => none, compEl := fun _ => none,
            elCompOv := fun _ => none, elChildrenOv := fun _ => none,
            fresh := 0, events := [] }).2.events
          = ([] : List Ev) ++ delta
        ∧ ∀ e ∈ delta, ∃ ce, e = Ev.removeNode 2 ce) := by
  constructor
  · exact (c8_relocation_handling.1 _ 9 (.component 1) none 5 1 none none
      (by rw [propagateLinking_component_eq]; simp [_plRecurse])).1
  · exact c8_relocation_handling.2.1 _ 1 2 [7] _

/-! ### The update-notification traversal (C6) -/

mutual

theorem trigger_updated_tag (tg : Tags) (vc : Id → Option Id) :
    (v : Vel) → (c : Id) → Ev.didUpdate c ∈ _triggerDidUpdate tg vc v →
      ∃ i, tg.is i .updated = true ∧ vc i = some c
  | .node d children, c, h => by
    unfold _triggerDidUpdate at h
    split at h
    · rcases List.mem_append.mp h with h1 | h2
      · split at h1
        · exact trigger_updated_tag_list tg vc children c h1
        · simp at h1
      · split at h2
        · rename_i hupd
          cases hvc : vc d.id with
          | some cc =>
            rw [hvc] at h2
            simp only [List.mem_singleton] at h2
            injection h2 with hcc
            exact ⟨d.id, hupd, by rw [hvc, hcc]⟩
          | none =>
            rw [hvc] at h2
            simp at h2
        · simp at h2
    · split at h
      · exact trigger_updated_tag_list tg vc children c h
      · simp at h

theorem trigger_updated_tag_list (tg : Tags) (vc : Id → Option Id) :
    (vs : List Vel) → (c : Id) → Ev.didUpdate c ∈ _triggerDidUpdateList tg vc vs →
      ∃ i, tg.is i .updated = true ∧ vc i = some c
  | [], c, h => by simp [_triggerDidUpdateList] at h
  | v :: vs, c, h => by
    unfold _triggerDidUpdateList at h
    rcases List.mem_append.mp h with h1 | h2
    · exact trigger_updated_tag tg vc v c h1
    · exact trigger_updated_tag_list tg vc vs c h2

end

/-- C6 counterexample: a mounted pass in which a non-new child component is
captured with `shouldRerender` returning false — so its render routine never
runs and it is not mounted — still receives the UPDATED tag and fires
`didUpdate`, refuting "fires only for instances re-rendered while already
mounted". -/
theorem c6_counterexample :
    ((captureStep (captureStep RStateP.empty
        { velId := 0, compId := 10, isTopLevel := true, hadComp := true,
          compHasEl := true, shouldRerender := true, isMounted := true,
          renderResult := .virtualHTMLElement }).1
        { velId := 1, compId := 11, isTopLevel := false, hadComp := true,
          compHasEl := true, shouldRerender := false, isMounted := false,
          renderResult := .virtualHTMLElement }).2 = .ok false)
    ∧ ¬ClaimC6At
        (_triggerDidUpdate
          ((captureStep (captureStep RStateP.empty
            { velId := 0, compId := 10, isTopLevel := true, hadComp := true,
              compHasEl := true, shouldRerender := true, isMounted := true,
              renderResult := .virtualHTMLElement }).1
            { velId := 1, compId := 11, isTopLevel := false, hadComp := true,
              compHasEl := true, shouldRerender := false, isMounted := false,
              renderResult := .virtualHTMLElement }).1).toTags
          (fun i => if i = 0 then some 10 else if i = 1 then some 11 else none)
          (Vel.node
            { id := 0, kind := .component 1, tagName := "div", attrs := [],
              htmlProps := [], listeners := [], text := "", innerHTML := none,
              isForwarding := false, isForwarded := false }
            [Vel.node
              { id := 1, kind := .component 2, tagName := "div", attrs := [],
                htmlProps := [], listeners := [], text := "", innerHTML := none,
                isForwarding := false, isForwarded := false } []]))
        (fun c => decide (c = 10)) := by
  constructor
  · rfl
  · intro h
    have h11 := h 11 (by decide)
    exact absurd h11 (by decide)

/-- C6 (amended): the update notification fires only for instances whose
descriptor carries the UPDATED tag — a tag `_capture` sets on every non-new
component descriptor it processes, whether or not the instance re-renders or
is mounted — and a component's own notification comes after all events of
its traversed descendants; the descendants of a skipped component are not
traversed at all. -/
theorem c6_did_update_discipline :
    (∀ (tg : Tags) (vc : Id → Option Id) (v : Vel) (c : Id),
      Ev.didUpdate c ∈ _triggerDidUpdate tg vc v →
        ∃ i, tg.is i .updated = true ∧ vc i = some c)
    ∧ (∀ (tg : Tags) (vc : Id → Option Id) (d : VelData) (children : List Vel) (c : Id),
        d.kind.isComponent = true → tg.is d.id .skipped = false →
        tg.is d.id .updated = true → vc d.id = some c →
        _triggerDidUpdate tg vc (.node d children)
          = _triggerDidUpdateList tg vc children ++ [Ev.didUpdate c])
    ∧ (∀ (tg : Tags) (vc : Id → Option Id) (d : VelData) (children : List Vel) (c : Id),
        d.kind.isComponent = true → tg.is d.id .skipped = true → vc d.id = some c →
        _triggerDidUpdate tg vc (.node d children)
          = if tg.is d.id .updated then [Ev.didUpdate c] else []) := by
  refine ⟨fun tg vc v c h => trigger_updated_tag tg vc v c h, ?_, ?_⟩
  · intro tg vc d children c hk hsk hupd hvc
    unfold _triggerDidUpdate
    simp [hk, hsk, hupd, hvc]
  · intro tg vc d children c hk hsk hvc
    unfold _triggerDidUpdate
    simp [hk, hsk, hvc]

/-- Witness for C6 at a concrete one-node tree. -/
theorem c6_did_update_discipline_witness :
    ∃ i, (fun (j : Id) (k : Tag) => decide (j = 4 ∧ k = Tag.updated)) i Tag.updated = true
      ∧ (fun (j : Id) => if j = 4 then some 44 else none) i = some 44 :=
  c6_did_update_discipline.1
    (fun j k => decide (j = 4 ∧ k = Tag.updated))
    (fun j => if j = 4 then some 44 else none)
    (Vel.node
      { id := 4, kind := .component 3, tagName := "div", attrs := [], htmlProps := [],
        listeners := [], text := "", innerHTML := none,
        isForwarding := false, isForwarded := false } [])
    44 (by decide)

/-! ### Dispose discipline in the child merge (C2) -/

theorem emit_nil (st : St) : st.emit [] = st := by
  cases st
  simp [St.emit]

theorem emit_emit (st : St) (a b : List Ev) : (st.emit a).emit b = st.emit (a ++ b) := by
  cases st
  simp [St.emit]

theorem emit_events (st : St) (l : List Ev) : (st.emit l).events = st.events ++ l := rfl

theorem emit_tags (st : St) (l : List Ev) : (st.emit l).tags = st.tags := rfl

theorem emit_velComp (st : St) (l : List Ev) : (st.emit l).velComp = st.velComp := rfl

theorem emit_compEl (st : St) (l : List Ev) : (st.emit l).compEl = st.compEl := rfl

theorem emit_elChildrenOv (st : St) (l : List Ev) :
    (st.emit l).elChildrenOv = st.elChildrenOv := rfl

theorem setTag_mono (st : St) (i : Id) (k : Tag) (c : Id) (k' : Tag)
    (h : st.tags.is c k' = true) : (st.setTag i k).tags.is c k' = true := by
  show (st.tags.set i k).is c k' = true
  rw [Tags.is_set]
  split
  · rfl
  · exact h

theorem disposedOf_append (a b : List Ev) :
    disposedOf (a ++ b) = disposedOf a ++ disposedOf b := by
  simp [disposedOf]

theorem mem_disposedOf {l : List Ev} {c : Id} : c ∈ disposedOf l ↔ Ev.dispose c ∈ l := by
  unfold disposedOf
  rw [List.mem_filterMap]
  constructor
  · rintro ⟨e, he, hm⟩
    cases e <;> simp_all
  · intro h
    exact ⟨Ev.dispose c, h, rfl⟩

theorem disposedOf_no_dispose {l : List Ev} (h : ∀ e ∈ l, e.isDispose = false) :
    disposedOf l = [] := by
  induction l with
  | nil => rfl
  | cons a rest ih =>
    have ha := h a (List.mem_cons_self a rest)
    have hr := ih fun e he => h e (List.mem_cons_of_mem _ he)
    cases a <;> simp_all [disposedOf, Ev.isDispose]

theorem okFrom_of_no_dispose :
    (l : List Ev) → (∀ e ∈ l, e.isDispose = false) → ∀ prev,
      disposeAfterDetachOkFrom prev l = true
  | [], _, _ => rfl
  | e :: rest, h, prev => by
    have he := h e (List.mem_cons_self e rest)
    have ihr := okFrom_of_no_dispose rest (fun x hx => h x (List.mem_cons_of_mem _ hx)) e
    simp [disposeAfterDetachOkFrom, he, ihr]

theorem safeb_of_no_dispose (l : List Ev) (h : ∀ e ∈ l, e.isDispose = false) :
    disposeAfterDetachOk l = true := by
  cases l with
  | nil => rfl
  | cons e rest =>
    have he := h e (List.mem_cons_self e rest)
    have hr := okFrom_of_no_dispose rest (fun x hx => h x (List.mem_cons_of_mem _ hx)) e
    simp [disposeAfterDetachOk, he, hr]

theorem okFrom_of_ok {l : List Ev} (h : disposeAfterDetachOk l = true) (prev : Ev) :
    disposeAfterDetachOkFrom prev l = true := by
  cases l with
  | nil => rfl
  | cons e rest =>
    simp only [disposeAfterDetachOk, Bool.and_eq_true, Bool.not_eq_true'] at h
    simp [disposeAfterDetachOkFrom, h.1, h.2]

theorem okFrom_append :
    (a b : List Ev) → (prev : Ev) → disposeAfterDetachOkFrom prev a = true →
      disposeAfterDetachOk b = true → disposeAfterDetachOkFrom prev (a ++ b) = true
  | [], b, prev, _, hb => by simpa using okFrom_of_ok hb prev
  | e :: a', b, prev, ha, hb => by
    simp only [List.cons_append, disposeAfterDetachOkFrom, Bool.and_eq_true] at ha ⊢
    exact ⟨ha.1, okFrom_append a' b e ha.2 hb⟩

theorem safeb_append {a b : List Ev} (ha : disposeAfterDetachOk a = true)
    (hb : disposeAfterDetachOk b = true) : disposeAfterDetachOk (a ++ b) = true := by
  cases a with
  | nil => simpa using hb
  | cons e a' =>
    simp only [List.cons_append, disposeAfterDetachOk, Bool.and_eq_true] at ha ⊢
    exact ⟨ha.1, okFrom_append a' b e ha.2 hb⟩

theorem dd_emit_of_events_eq {st st' : St} (hev : st'.events = st.events)
    {l : List Ev} (h : ∀ e ∈ l, e.isDispose = false) (olds : List Id) :
    DisposeDisc st (st'.emit l) olds := by
  refine ⟨l, ?_, ?_, ?_, safeb_of_no_dispose l h⟩
  · rw [emit_events, hev]
  · rw [disposedOf_no_dispose h]
    exact List.nil_sublist olds
  · intro c _ hm
    have := h _ hm
    simp [Ev.isDispose] at this

theorem dd_weaken {st st' : St} {l l' : List Id}
    (h : DisposeDisc st st' l) (hs : List.Sublist l l') : DisposeDisc st st' l' := by
  obtain ⟨d, h1, h2, h3, h4⟩ := h
  exact ⟨d, h1, h2.trans hs, h3, h4⟩

theorem dd_source {st₀ st st' : St} {l : List Id}
    (h : DisposeDisc st st' l) (hev : st.events = st₀.events)
    (hmono : ∀ c, st₀.tags.is c .detached = true → st.tags.is c .detached = true) :
    DisposeDisc st₀ st' l := by
  obtain ⟨d, h1, h2, h3, h4⟩ := h
  exact ⟨d, by rw [h1, hev], h2, fun c hc => h3 c (hmono c hc), h4⟩

theorem dd_trans {st st₁ st₂ : St} {l₁ l₂ : List Id}
    (h₁ : DisposeDisc st st₁ l₁) (h₂ : DisposeDisc st₁ st₂ l₂)
    (hmono : ∀ c, st.tags.is c .detached = true → st₁.tags.is c .detached = true) :
    DisposeDisc st st₂ (l₁ ++ l₂) := by
  obtain ⟨d₁, e₁, s₁, n₁, k₁⟩ := h₁
  obtain ⟨d₂, e₂, s₂, n₂, k₂⟩ := h₂
  refine ⟨d₁ ++ d₂, ?_, ?_, ?_, safeb_append k₁ k₂⟩
  · rw [e₂, e₁, List.append_assoc]
  · rw [disposedOf_append]
    exact List.Sublist.append s₁ s₂
  · intro c hc
    rw [List.mem_append]
    rintro (hm | hm)
    · exact n₁ c hc hm
    · exact n₂ c (hmono c hc) hm

theorem triggerDidMount_no_dispose (env : Env) (st : St) (p c : Id) :
    ∀ e ∈ _triggerDidMount env st p c, e.isDispose = false := by
  intro e he
  unfold _triggerDidMount at he
  split at he
  · rcases List.mem_singleton.mp he with rfl
    rfl
  · simp at he

theorem removeChild_tags (st : St) (pe c : Id) : (_removeChild st pe c).tags = st.tags := by
  unfold _removeChild
  cases st.compEl c <;> rfl

theorem removeChild_compEl (st : St) (pe c : Id) :
    (_removeChild st pe c).compEl = st.compEl := by
  unfold _removeChild
  cases st.compEl c <;> rfl

theorem appendChild_tags (env : Env) (st : St) (pc pe c : Id) :
    (_appendChild env st pc pe c).tags = st.tags := by
  unfold _appendChild
  cases st.compEl c <;> rfl

theorem insertBefore_tags (env : Env) (st : St) (pc pe c b : Id) :
    (_insertChildBefore env st pc pe c b).tags = st.tags := by
  unfold _insertChildBefore
  cases st.compEl c <;> cases st.compEl b <;> rfl

theorem replaceChild_tags (env : Env) (st : St) (pc pe o n : Id) :
    (_replaceChild env st pc pe o n).tags = st.tags := by
  unfold _replaceChild
  cases st.compEl o <;> cases st.compEl n <;> rfl

theorem removeChild_dd (st : St) (pe c : Id) :
    DisposeDisc st (_removeChild st pe c) [c] := by
  unfold _removeChild
  cases hce : st.compEl c with
  | none =>
    refine dd_emit_of_events_eq rfl ?_ [c]
    intro e he
    rcases List.mem_singleton.mp he with rfl
    rfl
  | some ce =>
    by_cases hdet : st.tags.is c .detached = true
    · rw [if_pos hdet]
      refine dd_emit_of_events_eq rfl ?_ [c]
      intro e he
      rcases List.mem_singleton.mp he with rfl
      rfl
    · rw [if_neg hdet]
      refine ⟨[Ev.removeNode pe ce, Ev.dispose c], rfl, List.Sublist.refl _, ?_, rfl⟩
      intro c₀ hc₀ hm
      simp at hm
      subst hm
      exact hdet hc₀

theorem appendChild_dd (env : Env) (st : St) (pc pe c : Id) :
    DisposeDisc st (_appendChild env st pc pe c) [] := by
  unfold _appendChild
  cases st.compEl c with
  | none =>
    refine dd_emit_of_events_eq rfl ?_ []
    intro e he
    rcases List.mem_singleton.mp he with rfl
    rfl
  | some childEl =>
    refine dd_emit_of_events_eq rfl ?_ []
    intro e he
    rcases List.mem_cons.mp he with rfl | he
    · rfl
    · exact triggerDidMount_no_dispose env st pc c e he

theorem insertBefore_dd (env : Env) (st : St) (pc pe c b : Id) :
    DisposeDisc st (_insertChildBefore env st pc pe c b) [] := by
  have hfail : ∀ e ∈ [Ev.assertFail], e.isDispose = false := by
    intro e he
    rcases List.mem_singleton.mp he with rfl
    rfl
  unfold _insertChildBefore
  cases st.compEl c with
  | none =>
    cases st.compEl b with
    | none => exact dd_emit_of_events_eq rfl hfail []
    | some _ => exact dd_emit_of_events_eq rfl hfail []
  | some childEl =>
    cases st.compEl b with
    | none => exact dd_emit_of_events_eq rfl hfail []
    | some beforeEl =>
      refine dd_emit_of_events_eq rfl ?_ []
      intro e he
      rcases List.mem_cons.mp he with rfl | he
      · rfl
      · exact triggerDidMount_no_dispose env st pc c e he

theorem replaceChild_dd (env : Env) (st : St) (pc pe o n : Id) :
    DisposeDisc st (_replaceChild env st pc pe o n) [o] := by
  have hfail : ∀ e ∈ [Ev.assertFail], e.isDispose = false := by
    intro e he
    rcases List.mem_singleton.mp he with rfl
    rfl
  unfold _replaceChild
  cases st.compEl o with
  | none =>
    cases st.compEl n with
    | none => exact dd_emit_of_events_eq rfl hfail [o]
    | some _ => exact dd_emit_of_events_eq rfl hfail [o]
  | some oldEl =>
    cases st.compEl n with
    | none => exact dd_emit_of_events_eq rfl hfail [o]
    | some newEl =>
      have htdm := triggerDidMount_no_dispose env st pc n
      by_cases hdet : st.tags.is o .detached = true
      · rw [if_pos hdet]
        refine dd_emit_of_events_eq rfl ?_ [o]
        intro e he
        rcases List.mem_cons.mp he with rfl | he
        · rfl
        · rw [List.nil_append] at he
          exact htdm e he
      · rw [if_neg hdet]
        have htdm0 : disposedOf (_triggerDidMount env st pc n) = [] :=
          disposedOf_no_dispose htdm
        refine ⟨Ev.replaceNode pe oldEl newEl ::
            ([Ev.dispose o] ++ _triggerDidMount env st pc n), rfl, ?_, ?_, ?_⟩
        · have hred : disposedOf (Ev.replaceNode pe oldEl newEl ::
              ([Ev.dispose o] ++ _triggerDidMount env st pc n))
              = o :: disposedOf (_triggerDidMount env st pc n) := by
            simp [disposedOf]
          rw [hred, htdm0]
        · intro c₀ hc₀ hm
          rcases List.mem_cons.mp hm with h | hm
          · exact Ev.noConfusion h
          rcases List.mem_append.mp hm with h | h
          · rcases List.mem_singleton.mp h with h
            injection h with h
            subst h
            exact hdet hc₀
          · have := htdm _ h
            simp [Ev.isDispose] at this
        · have hk := okFrom_of_no_dispose (_triggerDidMount env st pc n) htdm (Ev.dispose o)
          simp [disposeAfterDetachOk, disposeAfterDetachOkFrom, Ev.isDispose, Ev.isDetach, hk]

theorem removeRemaining_dd (pe : Id) :
    ∀ (olds : List Id) (st : St), DisposeDisc st (_removeRemaining pe olds st) olds
  | [], st => ⟨[], by simp [_removeRemaining], List.nil_sublist _, by simp, rfl⟩
  | c :: rest, st => by
    show DisposeDisc st (_removeRemaining pe rest (_removeChild st pe c)) (c :: rest)
    have h₁ := removeChild_dd st pe c
    have h₂ := removeRemaining_dd pe rest (_removeChild st pe c)
    have hmono : ∀ c₀, st.tags.is c₀ .detached = true →
        (_removeChild st pe c).tags.is c₀ .detached = true := by
      intro c₀ h
      rw [removeChild_tags]
      exact h
    exact dd_trans h₁ h₂ hmono

theorem removeChild_exact (st : St) (pe c : Id) (hce : (st.compEl c).isSome = true) :
    ∃ bl, _removeChild st pe c = st.emit bl
      ∧ disposedOf bl = (if st.tags.is c .detached then [] else [c]) := by
  unfold _removeChild
  cases hc : st.compEl c with
  | none => simp [hc] at hce
  | some ce =>
    by_cases hdet : st.tags.is c .detached = true
    · rw [if_pos hdet]
      exact ⟨_, rfl, by simp [hdet, disposedOf]⟩
    · rw [if_neg hdet]
      have hf : st.tags.is c .detached = false := by
        cases hb : st.tags.is c .detached
        · rfl
        · exact absurd hb hdet
      exact ⟨_, rfl, by simp [hf, disposedOf]⟩

theorem removeRemaining_exact (pe : Id) :
    ∀ (olds : List Id) (st : St), (∀ c ∈ olds, (st.compEl c).isSome = true) →
      ∃ delta, (_removeRemaining pe olds st).events = st.events ++ delta
        ∧ disposedOf delta = olds.filter (fun c => !(st.tags.is c .detached))
  | [], st, _ => ⟨[], by simp [_removeRemaining], by simp [disposedOf]⟩
  | c :: rest, st, h => by
    obtain ⟨bl, hbl, hbldis⟩ := removeChild_exact st pe c (h c (List.mem_cons_self c rest))
    obtain ⟨d', hd', hdis'⟩ := removeRemaining_exact pe rest (st.emit bl)
      (by intro x hx
          rw [emit_compEl]
          exact h x (List.mem_cons_of_mem _ hx))
    refine ⟨bl ++ d', ?_, ?_⟩
    · show (_removeRemaining pe rest (_removeChild st pe c)).events = _
      rw [hbl, hd', emit_events, List.append_assoc]
    · rw [disposedOf_append, hbldis, hdis']
      rw [List.filter_cons]
      simp only [emit_tags]
      by_cases hdet : st.tags.is c .detached = true
      · simp [hdet]
      · have hf : st.tags.is c .detached = false := by
          cases hb : st.tags.is c .detached
          · rfl
          · exact absurd hb hdet
        simp [hf]

/-- The reduct of one `_update` step. -/
theorem update_succ_eq (env : Env) (fuel : Nat) (st : St) (d : VelData)
    (children : List Vel) :
    _update env (fuel + 1) st (.node d children)
      = if st.tags.is d.id .skipped then st
        else match st.velComp d.id with
          | none => st.emit [Ev.assertFail]
          | some compId =>
            let st1 :=
              if d.isForwarding then
                match children with
                | fwd :: _ => _update env fuel st fwd
                | [] => st.emit [Ev.assertFail]
              else
                let st2 :=
                  match st.compEl compId with
                  | none =>
                    let p := _createDOMElement st d
                    { p.1 with compEl := fun c => if c = compId then some p.2 else p.1.compEl c }
                  | some elId =>
                    st.emit (_updateDOMElement (effElData env elId) elId d)
                if (d.kind.isComponent || d.kind.isElement) && d.innerHTML = none then
                  match st2.compEl compId with
                  | some elId =>
                    let p := stripOld env compId elId (elChildrenOf env st2 elId) st2
                    _mergeChildren env fuel compId elId p.1 children p.2
                  | none => st2.emit [Ev.assertFail]
                else st2
            let st3 :=
              if d.kind.isComponent ∧ d.isForwarding then
                match children with
                | .node fd _ :: _ =>
                  match st1.velComp fd.id with
                  | none => st1.emit [Ev.assertFail]
                  | some fcomp =>
                    match st1.compEl compId with
                    | none =>
                      { st1 with compEl := fun c =>
                          if c = compId then st1.compEl fcomp else st1.compEl c }
                    | some elId =>
                      match elCompOf env st1 elId with
                      | none => st1.emit [Ev.assertFail]
                      | some oldF =>
                        if oldF ≠ fcomp then
                          match elParentOf env elId, st1.compEl fcomp with
                          | some pEl, some fEl =>
                            let st4 := st1.emit
                              [Ev.dispose oldF, Ev.replaceNode pEl elId fEl, Ev.didMount fcomp]
                            { st4 with compEl := fun c =>
                                if c = compId then some fEl else st4.compEl c }
                          | _, _ => st1.emit [Ev.assertFail]
                        else st1
                | [] => st1.emit [Ev.assertFail]
              else st1
            (st3.setTag d.id .rendered).setTag compId .rendered := rfl

theorem update_succ_skipped_eq (env : Env) (fuel : Nat) (st : St) (d : VelData)
    (children : List Vel) (h : st.tags.is d.id .skipped = true) :
    _update env (fuel + 1) st (.node d children) = st := by
  rw [update_succ_eq, if_pos h]

theorem update_skipped (env : Env) (fuel : Nat) (st : St) (d : VelData) (ch : List Vel)
    (h : st.tags.is d.id .skipped = true) :
    ∃ dl, _update env fuel st (.node d ch) = st.emit dl ∧ ∀ e ∈ dl, e = Ev.fuelOut := by
  cases fuel with
  | zero => exact ⟨[Ev.fuelOut], rfl, by simp⟩
  | succ fuel =>
    refine ⟨[], ?_, by simp⟩
    rw [update_succ_skipped_eq env fuel st d ch h]
    exact (emit_nil st).symm

theorem update_skipped_v (env : Env) (fuel : Nat) (st : St) (v : Vel)
    (h : st.tags.is (Vel.data v).id .skipped = true) :
    ∃ dl, _update env fuel st v = st.emit dl ∧ ∀ e ∈ dl, e = Ev.fuelOut := by
  cases v with
  | node d ch => exact update_skipped env fuel st d ch h

theorem update_if_skipped (env : Env) (fuel : Nat) (st : St) (v : Vel)
    (h : st.tags.is (Vel.data v).id .skipped = true) :
    ∃ dl, (if ¬st.tags.is (Vel.data v).id .rendered then _update env fuel st v else st)
        = st.emit dl ∧ ∀ e ∈ dl, e = Ev.fuelOut := by
  split
  · exact update_skipped_v env fuel st v h
  · exact ⟨[], (emit_nil st).symm, by simp⟩

theorem fuelout_not_dispose : ∀ e, e = Ev.fuelOut → e.isDispose = false := by
  intro e he
  subst he
  rfl

/-- The reduct of one merge step on non-empty old and new lists, with the
intermediate `let`s of the source inlined. -/
theorem merge_cons_cons_eq (env : Env) (fuel : Nat) (pc pe oldC : Id) (olds' : List Id)
    (newVel : Vel) (news' : List Vel) (st : St) :
    _mergeChildren env (fuel + 1) pc pe (oldC :: olds') (newVel :: news') st
      = if st.tags.is oldC .detached then
          _mergeChildren env fuel pc pe olds' (newVel :: news') st
        else
          if ((((st.compEl oldC).map (effElData env)).map (·.isText)).getD false : Bool)
              ∧ (newVel.data.kind.isText : Bool)
              ∧ (((st.compEl oldC).map (effElData env)).map (·.text)).getD ""
                  = newVel.data.text then
            _mergeChildren env fuel pc pe olds' news' st
          else if (compKind env oldC |>.map VKind.isElement).getD false
              ∧ (newVel.data.kind.isElement : Bool)
              ∧ ¬st.tags.is oldC .mapped ∧ ¬st.tags.is newVel.data.id .mapped
              ∧ (compKind env oldC = some (.element newVel.data.tagName)) then
            _mergeChildren env fuel pc pe olds' news'
              (_update env fuel
                ((({ st with velComp := fun j =>
                    if j = newVel.data.id then some oldC else st.velComp j }).setTag
                    newVel.data.id .linked).setTag oldC .linked)
                newVel)
          else
            match (if ¬st.tags.is newVel.data.id .rendered
                then _update env fuel st newVel else st).velComp newVel.data.id with
            | none =>
              (if ¬st.tags.is newVel.data.id .rendered
                then _update env fuel st newVel else st).emit [Ev.assertFail]
            | some newComp =>
              if newComp = oldC then
                _mergeChildren env fuel pc pe olds' news'
                  (if ¬st.tags.is newVel.data.id .rendered
                    then _update env fuel st newVel else st)
              else if (if ¬st.tags.is newVel.data.id .rendered
                  then _update env fuel st newVel else st).tags.is newVel.data.id .linked then
                if (if ¬st.tags.is newVel.data.id .rendered
                    then _update env fuel st newVel else st).tags.is oldC .linked then
                  _mergeChildren env fuel pc pe olds' (newVel :: news')
                    (_removeChild
                      ((if ¬st.tags.is newVel.data.id .rendered
                        then _update env fuel st newVel else st).setTag oldC .detached)
                      pe oldC)
                else
                  _mergeChildren env fuel pc pe olds' (newVel :: news')
                    (_removeChild
                      (if ¬st.tags.is newVel.data.id .rendered
                        then _update env fuel st newVel else st)
                      pe oldC)
              else if (if ¬st.tags.is newVel.data.id .rendered
                  then _update env fuel st newVel else st).tags.is oldC .linked then
                _mergeChildren env fuel pc pe (oldC :: olds') news'
                  (_insertChildBefore env
                    (if ¬st.tags.is newVel.data.id .rendered
                      then _update env fuel st newVel else st)
                    pc pe newComp oldC)
              else
                _mergeChildren env fuel pc pe olds' news'
                  (_replaceChild env
                    (if ¬st.tags.is newVel.data.id .rendered
                      then _update env fuel st newVel else st)
                    pc pe oldC newComp) := rfl

/-- The dispose discipline of the dual-cursor merge: assuming the new child
descriptors are all skipped (their own subtree updates are no-ops, so every
event of the merge comes from the merge itself), the merge disposes a
subsequence of the stripped old children, never an instance already flagged
detached, and every dispose immediately follows a node detachment. -/
theorem merge_dispose (env : Env) (pc pe : Id) :
    ∀ (fuel : Nat) (olds : List Id) (news : List Vel) (st : St),
      (∀ v ∈ news, st.tags.is (Vel.data v).id .skipped = true) →
      DisposeDisc st (_mergeChildren env fuel pc pe olds news st) olds := by
  intro fuel
  induction fuel with
  | zero =>
    intro olds news st _
    exact ⟨[Ev.fuelOut], rfl, List.nil_sublist _, by simp, rfl⟩
  | succ fuel ih =>
    intro olds news st hsk
    cases olds with
    | nil =>
      cases news with
      | nil =>
        exact ⟨[], by simp [_mergeChildren], List.nil_sublist _, by simp, rfl⟩
      | cons newVel news' =>
        have hskH := hsk newVel (List.mem_cons_self _ _)
        have hsk' : ∀ v ∈ news', st.tags.is (Vel.data v).id .skipped = true :=
          fun v hv => hsk v (List.mem_cons_of_mem _ hv)
        obtain ⟨dl, hdl, hfl⟩ := update_if_skipped env fuel st newVel hskH
        have hred : _mergeChildren env (fuel + 1) pc pe [] (newVel :: news') st
            = match (if ¬st.tags.is newVel.data.id .rendered
                  then _update env fuel st newVel else st).velComp newVel.data.id with
              | none => (if ¬st.tags.is newVel.data.id .rendered
                  then _update env fuel st newVel else st).emit [Ev.assertFail]
              | some newComp =>
                _mergeChildren env fuel pc pe [] news'
                  (_appendChild env
                    (if ¬st.tags.is newVel.data.id .rendered
                      then _update env fuel st newVel else st) pc pe newComp) := rfl
        rw [hred, hdl]
        simp only [emit_velComp]
        cases hvc : st.velComp newVel.data.id with
        | none =>
          rw [emit_emit]
          refine dd_emit_of_events_eq rfl ?_ []
          intro e he
          rcases List.mem_append.mp he with h | h
          · exact fuelout_not_dispose e (hfl e h)
          · rcases List.mem_singleton.mp h with rfl
            rfl
        | some newComp =>
          have h₁ : DisposeDisc st (st.emit dl) [] :=
            dd_emit_of_events_eq rfl (fun e he => fuelout_not_dispose e (hfl e he)) []
          have h₂ := appendChild_dd env (st.emit dl) pc pe newComp
          have h₃ := ih [] news' (_appendChild env (st.emit dl) pc pe newComp)
            (by intro v hv
                rw [appendChild_tags]
                exact hsk' v hv)
          exact dd_trans (dd_trans h₁ h₂ (fun c hc => hc)) h₃
            (fun c hc => by rw [appendChild_tags]; exact hc)
    | cons oldC olds' =>
      cases news with
      | nil =>
        have hred : _mergeChildren env (fuel + 1) pc pe (oldC :: olds') [] st
            = if st.tags.is oldC .detached then
                _mergeChildren env fuel pc pe olds' [] st
              else _removeRemaining pe (oldC :: olds') st := rfl
        rw [hred]
        by_cases hdet : st.tags.is oldC .detached = true
        · rw [if_pos hdet]
          exact dd_weaken (ih olds' [] st (by simp))
            (List.Sublist.cons oldC (List.Sublist.refl olds'))
        · rw [if_neg hdet]
          exact removeRemaining_dd pe (oldC :: olds') st
      | cons newVel news' =>
        have hskH := hsk newVel (List.mem_cons_self _ _)
        have hsk' : ∀ v ∈ news', st.tags.is (Vel.data v).id .skipped = true :=
          fun v hv => hsk v (List.mem_cons_of_mem _ hv)
        rw [merge_cons_cons_eq]
        by_cases hdet : st.tags.is oldC .detached = true
        · rw [if_pos hdet]
          exact dd_weaken (ih olds' (newVel :: news') st hsk)
            (List.Sublist.cons oldC (List.Sublist.refl olds'))
        · rw [if_neg hdet]
          split
          · exact dd_weaken (ih olds' news' st hsk')
              (List.Sublist.cons oldC (List.Sublist.refl olds'))
          · split
            · have hOpp : ∀ stX : St,
                  stX.events = st.events →
                  (∀ c k, st.tags.is c k = true → stX.tags.is c k = true) →
                  DisposeDisc st
                    (_mergeChildren env fuel pc pe olds' news' (_update env fuel stX newVel))
                    (oldC :: olds') := by
                intro stX hev hmono
                obtain ⟨dl, hdl, hfl⟩ := update_skipped_v env fuel stX newVel (hmono _ _ hskH)
                rw [hdl]
                have h₁ : DisposeDisc st (stX.emit dl) [] :=
                  dd_emit_of_events_eq hev (fun e he => fuelout_not_dispose e (hfl e he)) []
                have h₃ := ih olds' news' (stX.emit dl)
                  (fun v hv => hmono _ _ (hsk' v hv))
                exact dd_weaken (dd_trans h₁ h₃ (fun c hc => hmono _ _ hc))
                  (List.Sublist.cons oldC (List.Sublist.refl olds'))
              exact hOpp _ rfl
                (fun c k hc => setTag_mono _ _ _ _ _ (setTag_mono _ _ _ _ _ hc))
            · obtain ⟨dl, hdl, hfl⟩ := update_if_skipped env fuel st newVel hskH
              rw [hdl]
              have hfo : ∀ e ∈ dl, e.isDispose = false :=
                fun e he => fuelout_not_dispose e (hfl e he)
              have h₁ : DisposeDisc st (st.emit dl) [] := dd_emit_of_events_eq rfl hfo []
              cases hvc : (st.emit dl).velComp newVel.data.id with
              | none =>
                show DisposeDisc st ((st.emit dl).emit [Ev.assertFail]) (oldC :: olds')
                rw [emit_emit]
                refine dd_emit_of_events_eq rfl ?_ _
                intro e he
                rcases List.mem_append.mp he with h | h
                · exact hfo e h
                · rcases List.mem_singleton.mp h with rfl
                  rfl
              | some newComp =>
                show DisposeDisc st
                  (if newComp = oldC then
                    _mergeChildren env fuel pc pe olds' news' (st.emit dl)
                  else if (st.emit dl).tags.is newVel.data.id .linked then
                    if (st.emit dl).tags.is oldC .linked then
                      _mergeChildren env fuel pc pe olds' (newVel :: news')
                        (_removeChild ((st.emit dl).setTag oldC .detached) pe oldC)
                    else
                      _mergeChildren env fuel pc pe olds' (newVel :: news')
                        (_removeChild (st.emit dl) pe oldC)
                  else if (st.emit dl).tags.is oldC .linked then
                    _mergeChildren env fuel pc pe (oldC :: olds') news'
                      (_insertChildBefore env (st.emit dl) pc pe newComp oldC)
                  else
                    _mergeChildren env fuel pc pe olds' news'
                      (_replaceChild env (st.emit dl) pc pe oldC newComp))
                  (oldC :: olds')
                split
                · exact dd_weaken
                    (dd_trans h₁ (ih olds' news' (st.emit dl) hsk') (fun c hc => hc))
                    (List.Sublist.cons oldC (List.Sublist.refl olds'))
                · split
                  · split
                    · have h₂ : DisposeDisc (st.emit dl)
                          (_removeChild ((st.emit dl).setTag oldC .detached) pe oldC)
                          [oldC] :=
                        dd_source
                          (removeChild_dd ((st.emit dl).setTag oldC .detached) pe oldC) rfl
                          (fun c hc => setTag_mono _ _ _ _ _ hc)
                      have h₃ := ih olds' (newVel :: news')
                        (_removeChild ((st.emit dl).setTag oldC .detached) pe oldC)
                        (by intro v hv
                            rw [removeChild_tags]
                            exact setTag_mono _ _ _ _ _ (hsk v hv))
                      exact dd_trans (dd_trans h₁ h₂ (fun c hc => hc)) h₃
                        (fun c hc => by
                          rw [removeChild_tags]
                          exact setTag_mono _ _ _ _ _ hc)
                    · have h₂ := removeChild_dd (st.emit dl) pe oldC
                      have h₃ := ih olds' (newVel :: news')
                        (_removeChild (st.emit dl) pe oldC)
                        (by intro v hv
                            rw [removeChild_tags]
                            exact hsk v hv)
                      exact dd_trans (dd_trans h₁ h₂ (fun c hc => hc)) h₃
                        (fun c hc => by rw [removeChild_tags]; exact hc)
                  · split
                    · have h₂ := insertBefore_dd env (st.emit dl) pc pe newComp oldC
                      have h₃ := ih (oldC :: olds') news'
                        (_insertChildBefore env (st.emit dl) pc pe newComp oldC)
                        (by intro v hv
                            rw [insertBefore_tags]
                            exact hsk' v hv)
                      exact dd_trans (dd_trans h₁ h₂ (fun c hc => hc)) h₃
                        (fun c hc => by rw [insertBefore_tags]; exact hc)
                    · have h₂ := replaceChild_dd env (st.emit dl) pc pe oldC newComp
                      have h₃ := ih olds' news'
                        (_replaceChild env (st.emit dl) pc pe oldC newComp)
                        (by intro v hv
                            rw [replaceChild_tags]
                            exact hsk' v hv)
                      exact dd_trans (dd_trans h₁ h₂ (fun c hc => hc)) h₃
                        (fun c hc => by rw [replaceChild_tags]; exact hc)

/-- With the new child list exhausted, the merge disposes exactly the
non-detached remaining old children, once each, in order. -/
theorem merge_news_nil (env : Env) (pc pe : Id) :
    ∀ (fuel : Nat) (olds : List Id) (st : St), olds.length < fuel →
      (∀ c ∈ olds, (st.compEl c).isSome = true) →
      ∃ delta, (_mergeChildren env fuel pc pe olds [] st).events = st.events ++ delta
        ∧ disposedOf delta = olds.filter (fun c => !(st.tags.is c .detached)) := by
  intro fuel
  induction fuel with
  | zero =>
    intro olds st h _
    exact absurd h (by omega)
  | succ fuel ih =>
    intro olds st hlen hce
    cases olds with
    | nil => exact ⟨[], by simp [_mergeChildren], by simp [disposedOf]⟩
    | cons oldC olds' =>
      have hred : _mergeChildren env (fuel + 1) pc pe (oldC :: olds') [] st
          = if st.tags.is oldC .detached then
              _mergeChildren env fuel pc pe olds' [] st
            else _removeRemaining pe (oldC :: olds') st := rfl
      rw [hred]
      by_cases hdet : st.tags.is oldC .detached = true
      · rw [if_pos hdet]
        obtain ⟨d, hd, hdis⟩ := ih olds' st
          (by simp only [List.length_cons] at hlen; omega)
          (fun c hc => hce c (List.mem_cons_of_mem _ hc))
        refine ⟨d, hd, ?_⟩
        rw [hdis, List.filter_cons]
        simp [hdet]
      · rw [if_neg hdet]
        exact removeRemaining_exact pe (oldC :: olds') st hce

/-- C2 (amended): in the dual-cursor merge over stripped old children whose
new descriptors are all skipped, the disposed instances form a subsequence of
the old child list (each removed or replaced instance is disposed at most
once); an instance already flagged detached for reordering is never disposed
again; an instance tagged relocated — which the pre-merge strip keeps out of
the old child list — is never disposed; every dispose fires immediately
AFTER the removal or replacement of the instance's node (not before it, as
claimed); and when the new child list is exhausted, the remaining
non-detached old children are disposed exactly once each. -/
theorem c2_dispose_discipline (env : Env) (pc pe : Id) (fuel : Nat)
    (olds : List Id) (news : List Vel) (st : St)
    (hsk : ∀ v ∈ news, st.tags.is (Vel.data v).id .skipped = true) :
    ∃ delta, (_mergeChildren env fuel pc pe olds news st).events = st.events ++ delta
      ∧ List.Sublist (disposedOf delta) olds
      ∧ (∀ c, st.tags.is c .detached = true → Ev.dispose c ∉ delta)
      ∧ ((∀ c ∈ olds, st.tags.is c .relocated = false) →
          ∀ c, st.tags.is c .relocated = true → Ev.dispose c ∉ delta)
      ∧ disposeAfterDetachOk delta = true
      ∧ (news = [] → olds.length < fuel → (∀ c ∈ olds, (st.compEl c).isSome = true) →
          disposedOf delta = olds.filter (fun c => !(st.tags.is c .detached))) := by
  obtain ⟨delta, h1, h2, h3, h4⟩ := merge_dispose env pc pe fuel olds news st hsk
  refine ⟨delta, h1, h2, h3, ?_, h4, ?_⟩
  · intro hrel c hc hm
    have hcm : c ∈ disposedOf delta := mem_disposedOf.mpr hm
    have hf := hrel c (h2.subset hcm)
    rw [hf] at hc
    exact absurd hc (by simp)
  · intro hnil hlen hce
    subst hnil
    obtain ⟨d₂, h1', hdis'⟩ := merge_news_nil env pc pe fuel olds st hlen hce
    have hd : delta = d₂ := List.append_cancel_left (h1.symm.trans h1')
    rw [hd, hdis']

/-- Witness for C2 at a concrete merge: one live old child, no new children. -/
theorem c2_dispose_discipline_witness :
    (∀ v ∈ ([] : List Vel), stC2.tags.is (Vel.data v).id .skipped = true)
    ∧ ∃ delta, (_mergeChildren envC2 2 1 2 [5] [] stC2).events = stC2.events ++ delta
      ∧ List.Sublist (disposedOf delta) [5]
      ∧ (∀ c, stC2.tags.is c .detached = true → Ev.dispose c ∉ delta)
      ∧ ((∀ c ∈ ([5] : List Id), stC2.tags.is c .relocated = false) →
          ∀ c, stC2.tags.is c .relocated = true → Ev.dispose c ∉ delta)
      ∧ disposeAfterDetachOk delta = true
      ∧ (([] : List Vel) = [] → ([5] : List Id).length < 2 →
          (∀ c ∈ ([5] : List Id), (stC2.compEl c).isSome = true) →
          disposedOf delta = ([5] : List Id).filter (fun c => !(stC2.tags.is c .detached))) :=
  ⟨by simp, c2_dispose_discipline envC2 1 2 2 [5] [] stC2 (by simp)⟩

/-- C2 counterexample: removing the one remaining old child emits the node
removal FIRST and the dispose notification only AFTER it, so the claimed
ordering — dispose before the node is detached, teardown seeing the live
node — fails on the trace. -/
theorem c2_counterexample :
    ¬DisposeBeforeDetach (_mergeChildren envC2 1 1 2 [5] [] stC2).events 5 50 := by
  intro h
  have := h 1 0 2 rfl rfl
  omega

/-! ### Forwarding transparency (C7) -/

theorem setTag_compEl (st : St) (i : Id) (k : Tag) : (st.setTag i k).compEl = st.compEl := rfl

theorem setTag_velComp (st : St) (i : Id) (k : Tag) :
    (st.setTag i k).velComp = st.velComp := rfl

/-- Along a chain of forwarding descriptors over a skipped base whose spine
instances own no node yet, `_update` aliases every spine instance's node to
the base instance's node, touches no other instance's node, and leaves the
descriptor-instance links unchanged. -/
theorem fwd_chain_alias (env : Env) (st : St) :
    ∀ {vel : Vel} {base : Id} {spine : List Id},
      FwdChainTo st vel base spine →
      ∀ fuel : Nat,
      spine.Nodup → base ∉ spine → spine.length ≤ fuel →
      (∀ c ∈ spine, st.compEl c = none) →
      (∀ c, c ∉ spine → (_update env fuel st vel).compEl c = st.compEl c)
      ∧ (∀ c ∈ spine, (_update env fuel st vel).compEl c = st.compEl base)
      ∧ (∀ i, (_update env fuel st vel).velComp i = st.velComp i) := by
  intro vel base spine hch
  induction hch with
  | base d children b hfwb hvcb hskip =>
    intro fuel hnd hnb hlen hfresh
    obtain ⟨dl, hdl, -⟩ := update_skipped_v env fuel st (.node d children) hskip
    rw [hdl]
    exact ⟨fun c _ => rfl, fun c hc => absurd hc (List.not_mem_nil c), fun i => rfl⟩
  | step d fwd crest b c₀ rest hfw hcomp hvc hnsk hrest ihh =>
    intro fuel hnd hnb hlen hfresh
    cases fwd with
    | node fd fch =>
      cases fuel with
      | zero => simp at hlen
      | succ f =>
        have hndc := List.nodup_cons.mp hnd
        have hc₀rest : c₀ ∉ rest := hndc.1
        have hnb' : b ∉ rest := fun h => hnb (List.mem_cons_of_mem _ h)
        have hlen' : rest.length ≤ f := by
          simp only [List.length_cons] at hlen
          omega
        have hfresh' : ∀ c ∈ rest, st.compEl c = none :=
          fun c hc => hfresh c (List.mem_cons_of_mem _ hc)
        obtain ⟨ih1, ih2, ih3⟩ := ihh f hndc.2 hnb' hlen' hfresh'
        obtain ⟨fnext, hvcf, hfnext⟩ :
            ∃ fnext, st.velComp fd.id = some fnext
              ∧ (_update env f st (.node fd fch)).compEl fnext = st.compEl b := by
          cases hrest with
          | base d' ch' b' hfw' hvb hsk' =>
            exact ⟨b, hvb, ih1 b (List.not_mem_nil b)⟩
          | step d' fwd' crest' b' c₁ rest' hfw' hcomp' hv1 hsk' hrest' =>
            exact ⟨c₁, hv1, ih2 c₁ (List.mem_cons_self _ _)⟩
        have hvc1 : (_update env f st (.node fd fch)).velComp fd.id = some fnext :=
          (ih3 fd.id).trans hvcf
        have hce0 : (_update env f st (.node fd fch)).compEl c₀ = none :=
          (ih1 c₀ hc₀rest).trans (hfresh c₀ (List.mem_cons_self _ _))
        have hstep : _update env (f + 1) st (.node d (.node fd fch :: crest))
            = (({ _update env f st (.node fd fch) with
                  compEl := fun c => if c = c₀ then
                      (_update env f st (.node fd fch)).compEl fnext
                    else (_update env f st (.node fd fch)).compEl c
                }).setTag d.id .rendered).setTag c₀ .rendered := by
          rw [update_succ_eq]
          rw [if_neg (by simp [hnsk])]
          rw [hvc]
          dsimp only
          rw [if_pos hfw]
          rw [if_pos ⟨hcomp, hfw⟩]
          rw [hvc1]
          dsimp only
          rw [hce0]
        rw [hstep]
        refine ⟨?_, ?_, ?_⟩
        · intro c hc
          have hne : c ≠ c₀ := fun h => hc (h ▸ List.mem_cons_self _ _)
          show (if c = c₀ then (_update env f st (.node fd fch)).compEl fnext
              else (_update env f st (.node fd fch)).compEl c) = st.compEl c
          rw [if_neg hne]
          exact ih1 c fun h => hc (List.mem_cons_of_mem _ h)
        · intro c hc
          rcases List.mem_cons.mp hc with heq | hc'
          · subst heq
            show (if c = c then (_update env f st (.node fd fch)).compEl fnext
                else (_update env f st (.node fd fch)).compEl c) = st.compEl b
            rw [if_pos rfl]
            exact hfnext
          · have hne : c ≠ c₀ := fun h => hc₀rest (h ▸ hc')
            show (if c = c₀ then (_update env f st (.node fd fch)).compEl fnext
                else (_update env f st (.node fd fch)).compEl c) = st.compEl b
            rw [if_neg hne]
            exact ih2 c hc'
        · intro i
          exact ih3 i

/-- Once an instance's node is aliased to `el`, the rest of the ancestor walk
keeps it aliased (every write of the walk writes `el`). -/
theorem propagate_preserve :
    ∀ (ancestors : List Id) (st : St) (el c : Id), st.compEl c = some el →
      (_propagateForwardedEl st true ancestors el).compEl c = some el
  | [], _, _, _, h => h
  | b :: rest, st, el, c, h => by
    show (_propagateForwardedEl
        (match st.velComp b with
         | some cb => { st with compEl := fun j => if j = cb then some el else st.compEl j }
         | none => st.emit [Ev.assertFail]) true rest el).compEl c = some el
    cases hb : st.velComp b with
    | none => exact propagate_preserve rest _ el c h
    | some cb =>
      refine propagate_preserve rest _ el c ?_
      show (if c = cb then some el else st.compEl c) = some el
      split
      · rfl
      · exact h

/-- The ancestor walk of `_propagateForwardedEl` aliases every ancestor's
instance to the forwarded node. -/
theorem propagate_alias :
    ∀ (ancestors : List Id) (st : St) (el : Id) (a c : Id),
      a ∈ ancestors → st.velComp a = some c →
      (_propagateForwardedEl st true ancestors el).compEl c = some el
  | [], _, _, a, _, ha, _ => absurd ha (List.not_mem_nil a)
  | b :: rest, st, el, a, c, ha, hv => by
    show (_propagateForwardedEl
        (match st.velComp b with
         | some cb => { st with compEl := fun j => if j = cb then some el else st.compEl j }
         | none => st.emit [Ev.assertFail]) true rest el).compEl c = some el
    rcases List.mem_cons.mp ha with heq | ha'
    · subst heq
      rw [hv]
      refine propagate_preserve rest _ el c ?_
      show (if c = c then some el else st.compEl c) = some el
      rw [if_pos rfl]
    · cases hb : st.velComp b with
      | none => exact propagate_alias rest _ el a c ha' hv
      | some cb => exact propagate_alias rest _ el a c ha' hv

/-- C7: a forwarding component never owns a node of its own kind.  In the
update phase, along any chain of forwarding descriptors over a (skipped)
non-forwarding base whose spine instances have no node yet, every spine
instance's node ends up equal to the base instance's node.  In adoption and
creation, the `_propagateForwardedEl` ancestor walk aliases every forwarding
ancestor's instance to the forwarded descendant's node. -/
theorem c7_forwarding_transparency :
    (∀ (env : Env) (spine : List Id) (vel : Vel) (base : Id) (st : St) (fuel : Nat),
      FwdChainTo st vel base spine →
      spine.Nodup → base ∉ spine → spine.length ≤ fuel →
      (∀ c ∈ spine, st.compEl c = none) →
      ∀ c ∈ spine, (_update env fuel st vel).compEl c = (_update env fuel st vel).compEl base)
    ∧ (∀ (ancestors : List Id) (st : St) (el : Id) (a c : Id),
        a ∈ ancestors → st.velComp a = some c →
        (_propagateForwardedEl st true ancestors el).compEl c = some el) := by
  constructor
  · intro env spine vel base st fuel hch hnd hnb hlen hfresh c hc
    obtain ⟨h1, h2, -⟩ := fwd_chain_alias env st hch fuel hnd hnb hlen hfresh
    rw [h2 c hc, h1 base hnb]
  · exact propagate_alias

/-- Witness for C7: a one-link chain over a skipped base owning node 99, and
a one-ancestor propagation walk. -/
theorem c7_forwarding_transparency_witness :
    (∀ c ∈ ([7] : List Id),
      (_update envC2 1 stC7 velC7).compEl c = (_update envC2 1 stC7 velC7).compEl 8)
    ∧ (_propagateForwardedEl stC7 true [1] 99).compEl 7 = some 99 := by
  constructor
  · exact c7_forwarding_transparency.1 envC2 [7] velC7 8 stC7 1
      (FwdChainTo.step _ _ _ _ _ _ rfl rfl rfl rfl (FwdChainTo.base _ _ _ rfl rfl rfl))
      (by decide) (by decide) (by decide) (by decide)
  · exact c7_forwarding_transparency.2 [1] stC7 99 1 7 (by decide) rfl

/-! ### Stability of a second pass over an unchanged tree (C5) -/

theorem velSize_pos : ∀ v : Vel, 1 ≤ velSize v
  | .node _ children => Nat.le_add_right 1 (velSizeList children)

theorem updateHash_nil {old new : List (String × String)}
    {u : String → String → Ev} {r : String → Ev}
    (hpt : ∀ k, _hashGet old k = _hashGet new k)
    (hnd : (new.map (·.1)).Nodup) :
    _updateHash old new u r = [] := by
  unfold _updateHash
  dsimp only
  rw [List.append_eq_nil]
  constructor
  · rw [List.filterMap_eq_nil_iff]
    intro p hp
    have h1 : _hashGet new p.1 = some p.2 := hashGet_mem hnd hp
    rw [hpt p.1, h1]
    simp
  · rw [List.filterMap_eq_nil_iff]
    intro p hp
    obtain ⟨v, hv⟩ : ∃ v, _hashGet old p.1 = some v := by
      unfold _hashGet
      cases hf : old.find? (fun q => q.1 = p.1) with
      | none =>
        have := List.find?_eq_none.mp hf p hp
        simp at this
      | some a => exact ⟨a.2, rfl⟩
    have h2 : _hashGet new p.1 = some v := (hpt p.1).symm.trans hv
    obtain ⟨q, hq, hq1, -⟩ := hashGet_eq_some h2
    have hcont : (new.map (·.1)).contains p.1 = true := by
      have hmem : p.1 ∈ new.map (·.1) := by
        rw [← hq1]
        exact List.mem_map_of_mem _ hq
      exact List.elem_eq_true_of_mem hmem
    rw [if_pos hcont]

theorem updateDOM_listener_only {ed : ElData} {elId : Id} {d : VelData}
    (hm : MatchesData d ed) :
    ∀ e ∈ _updateDOMElement ed elId d, e.isListenerSync = true := by
  have hL : ∀ x ∈ _updateListeners elId d.listeners, x.isListenerSync = true := by
    intro x hx
    unfold _updateListeners at hx
    rcases List.mem_cons.mp hx with rfl | hx
    · rfl
    · obtain ⟨nm, -, rfl⟩ := List.mem_map.mp hx
      rfl
  intro e he
  unfold MatchesData at hm
  unfold _updateDOMElement at he
  by_cases ht : d.kind.isText = true
  · rw [if_pos ht] at hm he
    rw [if_neg (by simp [hm.2])] at he
    simp at he
  · rw [if_neg ht] at hm he
    obtain ⟨-, htag, hattrs, hnda, hprops, hndp, hhtml⟩ := hm
    rw [if_neg (by simp [htag])] at he
    rw [updateHash_nil hattrs hnda] at he
    rw [updateHash_nil hprops hndp] at he
    have hE : (match d.innerHTML with
        | none => ([] : List Ev)
        | some s =>
          if ¬ed.hasInnerHTMLFlag then [Ev.emptyEl elId, Ev.setInnerHTML elId s]
          else if ed.innerHTML ≠ s then [Ev.setInnerHTML elId s]
          else []) = ([] : List Ev) := by
      cases hih : d.innerHTML with
      | none => rfl
      | some s =>
        rw [hih] at hhtml
        dsimp only
        rw [if_neg (by simp [hhtml.1]), if_neg (by simp [hhtml.2])]
    rw [hE] at he
    simp only [List.nil_append, List.append_nil] at he
    exact hL e he

theorem kind_text_not {k : VKind} (h : k.isText = true) :
    k.isComponent = false ∧ k.isElement = false := by
  cases k <;> simp_all [VKind.isText, VKind.isComponent, VKind.isElement]

theorem stequiv_refl (st : St) : StEquiv st st :=
  ⟨fun _ => rfl, fun _ => rfl, fun _ => rfl, fun _ => rfl, rfl, fun _ _ _ _ => rfl⟩

theorem stequiv_trans {st st₁ st₂ : St} (h₁ : StEquiv st st₁) (h₂ : StEquiv st₁ st₂) :
    StEquiv st st₂ := by
  obtain ⟨a1, b1, c1, d1, e1, f1⟩ := h₁
  obtain ⟨a2, b2, c2, d2, e2, f2⟩ := h₂
  exact ⟨fun i => (a2 i).trans (a1 i), fun i => (b2 i).trans (b1 i),
    fun i => (c2 i).trans (c1 i), fun i => (d2 i).trans (d1 i), e2.trans e1,
    fun i k h h' => (f2 i k h h').trans (f1 i k h h')⟩

theorem stequiv_emit (st : St) (l : List Ev) : StEquiv st (st.emit l) :=
  ⟨fun _ => rfl, fun _ => rfl, fun _ => rfl, fun _ => rfl, rfl, fun _ _ _ _ => rfl⟩

theorem stequiv_setTag_rendered (st : St) (i : Id) : StEquiv st (st.setTag i .rendered) := by
  refine ⟨fun _ => rfl, fun _ => rfl, fun _ => rfl, fun _ => rfl, rfl, ?_⟩
  intro j k hk hk'
  show Tags.set st.tags i Tag.rendered j k = st.tags j k
  unfold Tags.set
  rw [if_neg (fun h => hk h.2)]

theorem updpost_refl (st : St) : UpdPost st st :=
  ⟨⟨[], (List.append_nil _).symm, by simp⟩, stequiv_refl st⟩

theorem updpost_trans {st st₁ st₂ : St} (h₁ : UpdPost st st₁) (h₂ : UpdPost st₁ st₂) :
    UpdPost st st₂ := by
  obtain ⟨⟨d₁, e₁, l₁⟩, q₁⟩ := h₁
  obtain ⟨⟨d₂, e₂, l₂⟩, q₂⟩ := h₂
  refine ⟨⟨d₁ ++ d₂, ?_, ?_⟩, stequiv_trans q₁ q₂⟩
  · rw [e₂, e₁, List.append_assoc]
  · intro e he
    rcases List.mem_append.mp he with h | h
    · exact l₁ e h
    · exact l₂ e h

theorem updpost_emit (st : St) {l : List Ev} (h : ∀ e ∈ l, e.isListenerSync = true) :
    UpdPost st (st.emit l) :=
  ⟨⟨l, rfl, h⟩, stequiv_emit st l⟩

theorem updpost_setTag_rendered (st : St) (i : Id) : UpdPost st (st.setTag i .rendered) :=
  ⟨⟨[], (List.append_nil _).symm, by simp⟩, stequiv_setTag_rendered st i⟩

theorem updpost_setTags {st X : St} (h : UpdPost st X) (i j : Id) :
    UpdPost st ((X.setTag i .rendered).setTag j .rendered) :=
  updpost_trans (updpost_trans h (updpost_setTag_rendered X i))
    (updpost_setTag_rendered _ j)

mutual

theorem stable_equiv (env : Env) :
    (v : Vel) → ∀ {st st' : St}, StEquiv st st' → Stable env st v → Stable env st' v
  | .node d children, st, st', hq, hst => by
    obtain ⟨hvc, hce, hov, hchov, hfr, htg⟩ := hq
    rcases hst with ⟨hskip, hvcne⟩ | ⟨hnfw, c, e, ed, h1, h2, h3, h4, h5, h6, h7⟩
    · refine Or.inl ⟨?_, ?_⟩
      · show st'.tags d.id Tag.skipped = true
        rw [htg d.id Tag.skipped (by decide) (by decide)]
        exact hskip
      · rw [hvc d.id]
        exact hvcne
    · refine Or.inr ⟨hnfw, c, e, ed, ?_, ?_, ?_, ?_, h5, h6, ?_⟩
      · rw [hvc d.id]; exact h1
      · rw [hce c]; exact h2
      · rw [hov e]; exact h3
      · rw [hchov e]; exact h4
      · rcases h7 with h | h | ⟨hin, hk, hsp⟩
        · exact Or.inl h
        · exact Or.inr (Or.inl h)
        · exact Or.inr (Or.inr ⟨hin, hk,
            stablePairs_equiv env ed.children children ⟨hvc, hce, hov, hchov, hfr, htg⟩ hsp⟩)

theorem stablePairs_equiv (env : Env) :
    (ces : List Id) → (vs : List Vel) → ∀ {st st' : St}, StEquiv st st' →
      StablePairs env st ces vs → StablePairs env st' ces vs
  | [], [], _, _, _, _ => trivial
  | [], _ :: _, _, _, _, h => h.elim
  | _ :: _, [], _, _, _, h => h.elim
  | ce :: ces, child :: childs, st, st', hq, h => by
    obtain ⟨⟨hec, c, hvc2, hnf, hrel, hdet, hmap, hcompel⟩, hstb, hrec⟩ := h
    obtain ⟨hvc, hce, hov, hchov, hfr, htg⟩ := hq
    refine ⟨⟨?_, c, ?_, hnf, ?_, ?_, ?_, ?_⟩,
      stable_equiv env child ⟨hvc, hce, hov, hchov, hfr, htg⟩ hstb,
      stablePairs_equiv env ces childs ⟨hvc, hce, hov, hchov, hfr, htg⟩ hrec⟩
    · have hsame : elCompOf env st' ce = elCompOf env st ce := by
        unfold elCompOf
        rw [hov ce]
      rw [hsame, hvc child.data.id]
      exact hec
    · rw [hvc child.data.id]; exact hvc2
    · show st'.tags c Tag.relocated = false
      rw [htg c Tag.relocated (by decide) (by decide)]
      exact hrel
    · show st'.tags c Tag.detached = false
      rw [htg c Tag.detached (by decide) (by decide)]
      exact hdet
    · show st'.tags c Tag.mapped = true
      rw [htg c Tag.mapped (by decide) (by decide)]
      exact hmap
    · rw [hce c]; exact hcompel

end

theorem stableOlds_equiv (env : Env) :
    (olds : List Id) → (news : List Vel) → ∀ {st st' : St}, StEquiv st st' →
      StableOlds env st olds news → StableOlds env st' olds news
  | [], [], _, _, _, _ => trivial
  | [], _ :: _, _, _, _, h => h.elim
  | _ :: _, [], _, _, _, h => h.elim
  | c :: cs, child :: childs, st, st', hq, h => by
    obtain ⟨h1, h2, h3, ⟨ce, h4⟩, h5, h6⟩ := h
    obtain ⟨hvc, hce, hov, hchov, hfr, htg⟩ := hq
    refine ⟨?_, ?_, ?_, ⟨ce, ?_⟩,
      stable_equiv env child ⟨hvc, hce, hov, hchov, hfr, htg⟩ h5,
      stableOlds_equiv env cs childs ⟨hvc, hce, hov, hchov, hfr, htg⟩ h6⟩
    · rw [hvc child.data.id]; exact h1
    · show st'.tags c Tag.detached = false
      rw [htg c Tag.detached (by decide) (by decide)]
      exact h2
    · show st'.tags c Tag.mapped = true
      rw [htg c Tag.mapped (by decide) (by decide)]
      exact h3
    · rw [hce c]; exact h4

mutual

theorem vcdefined_equiv :
    (v : Vel) → ∀ {tg tg' : Tags} {vc vc' : Id → Option Id},
      (∀ i, tg'.is i .skipped = tg.is i .skipped) → (∀ i, vc' i = vc i) →
      VCDefined tg vc v → VCDefined tg' vc' v
  | .node d children, tg, tg', vc, vc', hsk, hvc, h => by
    obtain ⟨hc, he⟩ := h
    constructor
    · intro hkc
      obtain ⟨h1, h2⟩ := hc hkc
      refine ⟨?_, ?_⟩
      · rw [hvc d.id]; exact h1
      · intro hskip
        exact vcdefined_list_equiv children hsk hvc (h2 ((hsk d.id).symm.trans hskip))
    · intro hke
      exact vcdefined_list_equiv children hsk hvc (he hke)

theorem vcdefined_list_equiv :
    (vs : List Vel) → ∀ {tg tg' : Tags} {vc vc' : Id → Option Id},
      (∀ i, tg'.is i .skipped = tg.is i .skipped) → (∀ i, vc' i = vc i) →
      VCDefinedList tg vc vs → VCDefinedList tg' vc' vs
  | [] => fun _ _ _ => trivial
  | v :: vs => fun hsk hvc h =>
    ⟨vcdefined_equiv v hsk hvc h.1, vcdefined_list_equiv vs hsk hvc h.2⟩

end

theorem vcdefined_of_stequiv {st st' : St} (hq : StEquiv st st') (v : Vel)
    (h : VCDefined st.tags st.velComp v) : VCDefined st'.tags st'.velComp v :=
  vcdefined_equiv v
    (fun i => by
      show st'.tags i Tag.skipped = st.tags i Tag.skipped
      exact hq.2.2.2.2.2 i Tag.skipped (by decide) (by decide))
    (fun i => hq.1 i) h

/-- On a stable child sequence, the pre-merge strip touches nothing: the old
nodes resolve to their components one-for-one and none is removed. -/
theorem stripOld_stable (env : Env) (pc pe : Id) :
    ∀ (ces : List Id) (childs : List Vel) (st : St),
      StablePairs env st ces childs →
      ∃ olds, stripOld env pc pe ces st = (olds, st)
        ∧ StableOlds env st olds childs
  | [], childs, st, hsp => by
    cases childs with
    | nil => exact ⟨[], rfl, trivial⟩
    | cons c cs => exact hsp.elim
  | ce :: ces, childs, st, hsp => by
    cases childs with
    | nil => exact hsp.elim
    | cons child childs' =>
      obtain ⟨⟨hec, c, hvc, hnf, hrel, hdet, hmap, hcompel⟩, hstb, hrec⟩ := hsp
      have hec' : elCompOf env st ce = some c := by
        rw [hec, hvc]
        rfl
      obtain ⟨olds', hso', hSO'⟩ := stripOld_stable env pc pe ces childs' st hrec
      refine ⟨c :: olds', ?_, hvc, hdet, hmap, ⟨ce, hcompel⟩, hstb, hSO'⟩
      unfold stripOld
      rw [hec']
      dsimp only
      rw [if_neg (by simp [hnf])]
      dsimp only
      rw [if_neg (by simp [hrel])]
      rw [hso']

/-- A pass over a stable tree only re-synchronises listeners: the update (and
its child merges) appends listener events only and leaves every link, node
assignment and non-RENDERED/LINKED tag unchanged. -/
theorem stable_update_merge (env : Env) :
    ∀ fuel : Nat,
      (∀ (vel : Vel) (st : St), Stable env st vel → 2 * velSize vel ≤ fuel →
        UpdPost st (_update env fuel st vel))
      ∧ (∀ (pc pe : Id) (olds : List Id) (news : List Vel) (st : St),
          StableOlds env st olds news → 2 * velSizeList news + 1 ≤ fuel →
          UpdPost st (_mergeChildren env fuel pc pe olds news st)) := by
  intro fuel
  induction fuel with
  | zero =>
    constructor
    · intro vel st _ hbud
      have := velSize_pos vel
      omega
    · intro pc pe olds news st _ hbud
      omega
  | succ fuel ih =>
    obtain ⟨ihA, ihB⟩ := ih
    constructor
    · intro vel st hst hbud
      cases vel with
      | node d children =>
        by_cases hskp : st.tags.is d.id .skipped = true
        · rw [update_succ_skipped_eq env fuel st d children hskp]
          exact updpost_refl st
        · rcases hst with ⟨hskip, -⟩ |
            ⟨hnfw, c, e, ed, hvc, hce, hov, hchov, hels, hmatch, hkinds⟩
          · exact absurd hskip hskp
          · have heff : effElData env e = ed := by
              unfold effElData
              rw [hels]
              rfl
            have hupd : ∀ x ∈ _updateDOMElement ed e d, x.isListenerSync = true :=
              updateDOM_listener_only hmatch
            rw [update_succ_eq]
            rw [if_neg hskp]
            rw [hvc]
            dsimp only
            rw [if_neg (by simp [hnfw])]
            rw [hce]
            dsimp only
            rw [heff]
            rw [if_neg (by simp [hnfw])]
            rcases hkinds with htext | ⟨hihs, hke⟩ | ⟨hihn, hke, hsp⟩
            · obtain ⟨hkc, hkel⟩ := kind_text_not htext
              rw [if_neg (by simp [hkc, hkel])]
              exact updpost_setTags (updpost_emit st hupd) d.id c
            · rw [if_neg (by simp [hihs])]
              exact updpost_setTags (updpost_emit st hupd) d.id c
            · have hcond : ((d.kind.isComponent || d.kind.isElement)
                  && decide (d.innerHTML = none)) = true := by
                rcases hke with h | h <;> simp [h, hihn]
              rw [if_pos hcond]
              rw [emit_compEl, hce]
              dsimp only
              have hkids : elChildrenOf env (st.emit (_updateDOMElement ed e d)) e
                  = ed.children := by
                unfold elChildrenOf
                rw [emit_elChildrenOv, hchov, hels]
                rfl
              rw [hkids]
              have hq : StEquiv st (st.emit (_updateDOMElement ed e d)) := stequiv_emit st _
              obtain ⟨olds, hso, hSO⟩ := stripOld_stable env c e ed.children children
                (st.emit (_updateDOMElement ed e d))
                (stablePairs_equiv env ed.children children hq hsp)
              rw [hso]
              dsimp only
              have hbud' : 2 * velSizeList children + 1 ≤ fuel := by
                have hsz : velSize (Vel.node d children) = 1 + velSizeList children := rfl
                rw [hsz] at hbud
                omega
              have hup2 := ihB c e olds children (st.emit (_updateDOMElement ed e d)) hSO hbud'
              exact updpost_setTags (updpost_trans (updpost_emit st hupd) hup2) d.id c
    · intro pc pe olds news st hSO hbud
      cases olds with
      | nil =>
        cases news with
        | nil =>
          have hred : _mergeChildren env (fuel + 1) pc pe [] [] st = st := rfl
          rw [hred]
          exact updpost_refl st
        | cons v vs => exact hSO.elim
      | cons oldC olds' =>
        cases news with
        | nil => exact hSO.elim
        | cons newVel news' =>
          obtain ⟨hvcN, hndet, hmap, ⟨ce, hce⟩, hstb, hrec⟩ := hSO
          rw [merge_cons_cons_eq]
          rw [if_neg (by simp [hndet])]
          split
          · have hbud' : 2 * velSizeList news' + 1 ≤ fuel := by
              have h1 : velSizeList (newVel :: news')
                  = velSize newVel + velSizeList news' := rfl
              have h2 := velSize_pos newVel
              rw [h1] at hbud
              omega
            exact ihB pc pe olds' news' st hrec hbud'
          · split
            · rename_i hopp
              exact absurd hmap hopp.2.2.1
            · have hif : ∃ st₁, (if ¬st.tags.is newVel.data.id .rendered
                    then _update env fuel st newVel else st) = st₁ ∧ UpdPost st st₁ := by
                by_cases hrd : st.tags.is newVel.data.id .rendered = true
                · rw [if_neg (fun h => h hrd)]
                  exact ⟨st, rfl, updpost_refl st⟩
                · rw [if_pos hrd]
                  refine ⟨_, rfl, ?_⟩
                  have h1 : velSizeList (newVel :: news')
                      = velSize newVel + velSizeList news' := rfl
                  rw [h1] at hbud
                  exact ihA newVel st hstb (by omega)
              obtain ⟨st₁, hst₁, hupd₁⟩ := hif
              rw [hst₁]
              have hvc₁ : st₁.velComp newVel.data.id = some oldC :=
                (hupd₁.2.1 newVel.data.id).trans hvcN
              rw [hvc₁]
              dsimp only
              rw [if_pos rfl]
              have hbud' : 2 * velSizeList news' + 1 ≤ fuel := by
                have h1 : velSizeList (newVel :: news')
                    = velSize newVel + velSizeList news' := rfl
                have h2 := velSize_pos newVel
                rw [h1] at hbud
                omega
              exact updpost_trans hupd₁
                (ihB pc pe olds' news' st₁
                  (stableOlds_equiv env olds' news' hupd₁.2 hrec) hbud')

mutual

theorem trigger_didupdate_only (tg : Tags) (vc : Id → Option Id) :
    (v : Vel) → VCDefined tg vc v →
      ∀ e ∈ _triggerDidUpdate tg vc v, e.isDidUpdate = true
  | .node d children, hvcd, e, he => by
    obtain ⟨hc, hel⟩ := hvcd
    unfold _triggerDidUpdate at he
    split at he
    · rename_i hkc
      rcases List.mem_append.mp he with h1 | h2
      · split at h1
        · rename_i hns
          have hsf : tg.is d.id .skipped = false := by
            cases hb : tg.is d.id .skipped
            · rfl
            · exact absurd hb hns
          exact trigger_didupdate_only_list tg vc children ((hc hkc).2 hsf) e h1
        · simp at h1
      · split at h2
        · rcases hvcs : vc d.id with _ | cc
          · exact absurd hvcs (hc hkc).1
          · rw [hvcs] at h2
            simp at h2
            subst h2
            rfl
        · simp at h2
    · split at he
      · rename_i hke
        exact trigger_didupdate_only_list tg vc children (hel hke) e he
      · simp at he

theorem trigger_didupdate_only_list (tg : Tags) (vc : Id → Option Id) :
    (vs : List Vel) → VCDefinedList tg vc vs →
      ∀ e ∈ _triggerDidUpdateList tg vc vs, e.isDidUpdate = true
  | [], _, e, he => by simp [_triggerDidUpdateList] at he
  | v :: vs, h, e, he => by
    unfold _triggerDidUpdateList at he
    rcases List.mem_append.mp he with h1 | h2
    · exact trigger_didupdate_only tg vc v h.1 e h1
    · exact trigger_didupdate_only_list tg vc vs h.2 e h2

end

theorem ev_class (e : Ev) (h : e.isListenerSync = true ∨ e.isDidUpdate = true) :
    e.isDidMount = false ∧ e.isDispose = false
      ∧ (e.isMutation = true → e.isListenerSync = true) := by
  cases e <;>
    simp_all [Ev.isListenerSync, Ev.isDidUpdate, Ev.isDidMount, Ev.isDispose, Ev.isMutation]

/-- C5 (amended): a second pass over an unchanged (stable) virtual tree is
not mutation-free: it unconditionally removes and re-adds every element's
event listeners, and it fires `didUpdate` for every UPDATED-tagged instance;
but every event of the pass is either such a listener re-synchronisation or
an update notification — in particular no structural or content mutation, no
mount and no dispose notification occurs. -/
theorem c5_second_pass (env : Env) (fuel : Nat) (vel : Vel) (st : St) (rootEl : Id)
    (hst : Stable env st vel) (hbud : 2 * velSize vel ≤ fuel)
    (hvcd : VCDefined st.tags st.velComp vel) :
    ∃ delta, (renderPass env fuel st vel rootEl false).events = st.events ++ delta
      ∧ (∀ e ∈ delta, e.isListenerSync = true ∨ e.isDidUpdate = true)
      ∧ (∀ e ∈ delta, e.isDidMount = false ∧ e.isDispose = false
          ∧ (e.isMutation = true → e.isListenerSync = true)) := by
  obtain ⟨⟨d1, he1, hl1⟩, hq⟩ := (stable_update_merge env fuel).1 vel st hst hbud
  have hred : renderPass env fuel st vel rootEl false
      = (_update env fuel st vel).emit
          (_triggerDidUpdate (_update env fuel st vel).tags
            (_update env fuel st vel).velComp vel) := by
    unfold renderPass
    rw [if_neg (by simp)]
  rw [hred]
  have hvcd' : VCDefined (_update env fuel st vel).tags (_update env fuel st vel).velComp vel :=
    vcdefined_of_stequiv hq vel hvcd
  have hmain : ∀ e ∈ d1 ++ _triggerDidUpdate (_update env fuel st vel).tags
      (_update env fuel st vel).velComp vel,
      e.isListenerSync = true ∨ e.isDidUpdate = true := by
    intro e he
    rcases List.mem_append.mp he with h | h
    · exact Or.inl (hl1 e h)
    · exact Or.inr (trigger_didupdate_only _ _ vel hvcd' e h)
  refine ⟨d1 ++ _triggerDidUpdate (_update env fuel st vel).tags
      (_update env fuel st vel).velComp vel, ?_, hmain,
    fun e he => ev_class e (hmain e he)⟩
  rw [emit_events, he1, List.append_assoc]

/-- Witness for C5 at a concrete stable pass: one UPDATED component with one
listener over its unchanged node. -/
theorem c5_second_pass_witness :
    (Stable envC5 stC5 velC5 ∧ VCDefined stC5.tags stC5.velComp velC5)
    ∧ ∃ delta, (renderPass envC5 2 stC5 velC5 100 false).events = stC5.events ++ delta
      ∧ (∀ e ∈ delta, e.isListenerSync = true ∨ e.isDidUpdate = true)
      ∧ (∀ e ∈ delta, e.isDidMount = false ∧ e.isDispose = false
          ∧ (e.isMutation = true → e.isListenerSync = true)) := by
  have hst : Stable envC5 stC5 velC5 :=
    Or.inr ⟨rfl, 10, 100, edC5, rfl, rfl, rfl, rfl, rfl,
      ⟨rfl, by decide, fun _ => rfl, List.nodup_nil, fun _ => rfl, List.nodup_nil, trivial⟩,
      Or.inr (Or.inr ⟨rfl, Or.inl rfl, trivial⟩)⟩
  have hvcd : VCDefined stC5.tags stC5.velComp velC5 :=
    ⟨fun _ => ⟨by decide, fun _ => trivial⟩, fun h => absurd h (by decide)⟩
  exact ⟨⟨hst, hvcd⟩, c5_second_pass envC5 2 velC5 stC5 100 hst (by decide) hvcd⟩

/-- C5 counterexample: the very same stable second pass still mutates the
target tree (it removes and re-adds the unchanged listener) and fires an
update notification, so the claimed "zero mutations and no update
notification" is false. -/
theorem c5_counterexample :
    ¬ClaimC5At (renderPass envC5 2 stC5 velC5 100 false).events := by
  intro h
  have := h (Ev.removeAllListeners 100) (by decide)
  exact absurd this.1 (by decide)

/-- C9 counterexample: an element whose previous concrete state equals the
captured state in every hash and listener still receives listener mutations —
the listener list is not key-diffed, so an unchanged listener does not cause
"no mutation" as claimed. -/
theorem c9_counterexample :
    ¬(∀ (ed : ElData) (elId : Id) (d : VelData),
        ed.tagName = strLower d.tagName → ed.attrs = d.attrs → ed.htmlProps = d.htmlProps →
        ed.listeners = d.listeners → d.innerHTML = none → d.kind.isElement = true →
        _updateDOMElement ed elId d = []) := by
  intro h
  have := h
    { isText := false, tagName := "div", text := "", attrs := [], htmlProps := [],
      listeners := ["click"], innerHTML := "", hasInnerHTMLFlag := false,
      comp := none, children := [], parent := none }
    5
    { id := 0, kind := .element "div", tagName := "div", attrs := [], htmlProps := [],
      listeners := ["click"], text := "", innerHTML := none,
      isForwarding := false, isForwarded := false }
    (by decide) rfl rfl rfl rfl rfl
  exact absurd this (by decide)

end Substance
